import Mathlib

/-!
# Verification of the tinycss2 tokenizer (`tinycss2/tokenizer.py`)

A shallow embedding of the CSS component-value tokenizer.  Python strings are
modelled as `List Nat` of Unicode codepoints (Python strings may hold lone
surrogates, which Lean's `Char` cannot represent, and the tokenizer treats
them as opaque codepoints).  Python's in-place list mutation with aliased
nested block contents is modelled by an explicit stack of builder frames;
closing a block (or reaching end of input) rebuilds the nested structure
that the Python code obtains through aliasing.

The `repr` fields of URL and String tokens are omitted: they are produced by
the external serializer collaborator (`serialize_url`,
`serialize_string_value`), which the specification explicitly places out of
scope.  The float `value` of numeric tokens is likewise omitted (floating
point); the integer value and the exact matched text `repr_` are kept.

All loops are expressed with explicit fuel so that every definition is
executable by kernel reduction; the top-level scanner returns `none` when
fuel runs out or when the source's `assert` in the URL branch would fail,
so that totality ("never raises, always returns") is a provable theorem
rather than an artifact of the embedding.
-/

namespace Tinycss2

/-- Codepoint of `css` at index `pos`, `0` when out of range.  The tokenizer
only indexes guarded positions, and `0` is in no character class used by the
scanner, so the default is inert. -/
def nth (css : List Nat) (pos : Nat) : Nat := css.getD pos 0

/-- The Python slice `css[a:b]`. -/
def substr (css : List Nat) (a b : Nat) : List Nat := (css.take b).drop a

/-- Does `sub` occur at the head of `l`? -/
def matchList : List Nat → List Nat → Bool
  | [], _ => true
  | _ :: _, [] => false
  | a :: as, b :: bs => a == b && matchList as bs

/-- The Python `css.startswith(sub, pos)`. -/
def matchAt (css sub : List Nat) (pos : Nat) : Bool := matchList sub (css.drop pos)

/-- Membership in the string `' \n\t'`. -/
def isWsChar (c : Nat) : Bool := c == 32 || c == 10 || c == 9

def isDigit (c : Nat) : Bool := 48 ≤ c && c ≤ 57

def isLetter (c : Nat) : Bool := (65 ≤ c && c ≤ 90) || (97 ≤ c && c ≤ 122)

def isHexDigit (c : Nat) : Bool := isDigit c || (65 ≤ c && c ≤ 70) || (97 ≤ c && c ≤ 102)

/-- `_is_name_start` character class: ASCII letter, `_`, or non-ASCII. -/
def isNameStartChar (c : Nat) : Bool := isLetter c || c == 95 || decide (0x7F < c)

/-- Name code point: letter, digit, `-`, `_`, or non-ASCII
(the literal class in `_consume_ident`). -/
def isNameChar (c : Nat) : Bool :=
  isLetter c || isDigit c || c == 45 || c == 95 || decide (0x7F < c)

/-- Length of the leading run of characters satisfying `p`. -/
def countLeading (p : Nat → Bool) : List Nat → Nat
  | [] => 0
  | c :: r => if p c then countLeading p r + 1 else 0

/-- Length of the run of characters satisfying `p` starting at `pos`. -/
def runLen (p : Nat → Bool) (css : List Nat) (pos : Nat) : Nat :=
  countLeading p (css.drop pos)

/-- `while css.startswith((' ', '\n', '\t'), pos): pos += 1`. -/
def skipWs (css : List Nat) (pos : Nat) : Nat := pos + runLen isWsChar css pos

def hexDigitVal (c : Nat) : Nat :=
  if isDigit c then c - 48 else if 65 ≤ c && c ≤ 70 then c - 55 else c - 87

/-- `int(s, 16)` on a nonempty string of hex digits. -/
def hexVal (s : List Nat) : Nat := s.foldl (fun acc c => acc * 16 + hexDigitVal c) 0

def decVal (s : List Nat) : Nat := s.foldl (fun acc c => acc * 10 + (c - 48)) 0

/-- `int(s)` on a decimal literal with optional sign. -/
def parseIntDec (s : List Nat) : Int :=
  match s with
  | 45 :: r => - (decVal r : Int)
  | 43 :: r => (decVal r : Int)
  | _ => (decVal s : Int)

/-- `webencodings.ascii_lower`: lowercases ASCII `A`–`Z` only. -/
def asciiLower (s : List Nat) : List Nat :=
  s.map fun c => if 65 ≤ c && c ≤ 90 then c + 32 else c

/-- `css.rfind('\n', a, b)`: last index in `[a, b)` holding a newline,
as an `Option` instead of `-1`. -/
def rfindNL (css : List Nat) (a : Nat) : Nat → Option Nat
  | 0 => none
  | b + 1 =>
    if b < a then none
    else if nth css b == 10 then some b
    else rfindNL css a b

/-- `css.count('\n', a, b)`. -/
def countNLBetween (css : List Nat) (a b : Nat) : Nat := (substr css a b).count 10

def findPairAux (x y : Nat) : List Nat → Nat → Option Nat
  | a :: b :: r, i => if a == x && b == y then some i else findPairAux x y (b :: r) (i + 1)
  | _, _ => none

/-- `css.find(str([x, y]), start)` for a two-character pattern, as an
`Option` instead of `-1`. -/
def findPair (css : List Nat) (x y start : Nat) : Option Nat :=
  findPairAux x y (css.drop start) start

/-- Error tags of `ParseError` tokens. -/
inductive ErrKind where
  | badString | badUrl | eofInString | eofInUrl | unmatched (c : Nat)
deriving DecidableEq

/-- `_consume_escape`: `pos` is just after the backslash of a valid escape.
Returns the decoded codepoint and the new position.  `sys.maxunicode` is
`0x10FFFF`; `chr` is the identity on codepoints in this model. -/
def consumeEscape (css : List Nat) (pos : Nat) : Nat × Nat :=
  let d := min (runLen isHexDigit css pos) 6
  if d ≠ 0 then
    let cp := hexVal (substr css pos (pos + d))
    let p := pos + d
    let p' := if isWsChar (nth css p) && decide (p < css.length) then p + 1 else p
    ((if 0 < cp ∧ cp ≤ 0x10FFFF then cp else 0xFFFD), p')
  else if pos < css.length then (nth css pos, pos + 1)
  else (0xFFFD, pos)

/-- Loop of `_consume_ident`, with fuel. -/
def consumeIdentAux (css : List Nat) : Nat → Nat → List Nat × Nat
  | 0, pos => ([], pos)
  | fuel + 1, pos =>
    if pos < css.length then
      let c := nth css pos
      if isNameChar c then
        let r := consumeIdentAux css fuel (pos + 1)
        (c :: r.1, r.2)
      else if c == 92 && !matchAt css [92, 10] pos then
        let e := consumeEscape css (pos + 1)
        let r := consumeIdentAux css fuel e.2
        (e.1 :: r.1, r.2)
      else ([], pos)
    else ([], pos)

/-- `_consume_ident`: unescaped name and new position. -/
def consumeIdent (css : List Nat) (pos : Nat) : List Nat × Nat :=
  consumeIdentAux css (css.length + 1) pos

/-- `_is_ident_start`. -/
def isIdentStart (css : List Nat) (pos : Nat) : Bool :=
  if isNameStartChar (nth css pos) then true
  else if nth css pos == 45 then
    (decide (pos + 1 < css.length) &&
      (isNameStartChar (nth css (pos + 1)) || nth css (pos + 1) == 45)) ||
    (matchAt css [92] (pos + 1) && !matchAt css [92, 10] (pos + 1))
  else if nth css pos == 92 then !matchAt css [92, 10] pos
  else false

/-- Loop of `_consume_quoted_string`, with fuel; `quote` is the opening
quote character, `pos` starts just after it.  A `none` value means the
`bad-string` early return that discards all accumulated chunks. -/
def consumeQuotedStringAux (css : List Nat) (quote : Nat) :
    Nat → Nat → Option (List Nat) × Nat × Option ErrKind
  | 0, pos => (some [], pos, none)
  | fuel + 1, pos =>
    if pos < css.length then
      let c := nth css pos
      if c == quote then (some [], pos + 1, none)
      else if c == 92 then
        if pos + 1 < css.length then
          if nth css (pos + 1) == 10 then
            consumeQuotedStringAux css quote fuel (pos + 2)
          else
            let e := consumeEscape css (pos + 1)
            match consumeQuotedStringAux css quote fuel e.2 with
            | (some v, p, er) => (some (e.1 :: v), p, er)
            | (none, p, er) => (none, p, er)
        else (some [], pos + 1, some .eofInString)
      else if c == 10 then (none, pos, some .badString)
      else
        match consumeQuotedStringAux css quote fuel (pos + 1) with
        | (some v, p, er) => (some (c :: v), p, er)
        | (none, p, er) => (none, p, er)
    else (some [], pos, some .eofInString)

/-- `_consume_quoted_string`: `pos` is at the opening quote. -/
def consumeQuotedString (css : List Nat) (pos : Nat) :
    Option (List Nat) × Nat × Option ErrKind :=
  consumeQuotedStringAux css (nth css pos) (css.length + 1) (pos + 1)

/-- The set of characters that abort an unquoted URL body: quote, `(`, or a
non-printable character. -/
def isUrlBadChar (c : Nat) : Bool :=
  c == 34 || c == 39 || c == 40 || decide (c ≤ 8) || c == 11 ||
  (decide (14 ≤ c) && decide (c ≤ 31)) || c == 127

/-- Result of the inner accumulation loop of `_consume_url`: either a direct
`return` out of the function, or a `break` into the trailing-whitespace /
bad-url recovery code that follows the loop. -/
inductive UrlBody where
  | ret (value : Option (List Nat)) (pos : Nat) (err : Option ErrKind)
  | brk (value : Option (List Nat)) (pos : Nat)

/-- Inner accumulation loop of `_consume_url`, with fuel. -/
def consumeUrlBodyAux (css : List Nat) : Nat → Nat → UrlBody
  | 0, pos => .brk none pos
  | fuel + 1, pos =>
    if pos < css.length then
      let c := nth css pos
      if c == 41 then .ret (some []) (pos + 1) none
      else if isWsChar c then .brk (some []) (pos + 1)
      else if c == 92 && !matchAt css [92, 10] pos then
        let e := consumeEscape css (pos + 1)
        match consumeUrlBodyAux css fuel e.2 with
        | .ret (some v) p er => .ret (some (e.1 :: v)) p er
        | .ret none p er => .ret none p er
        | .brk (some v) p => .brk (some (e.1 :: v)) p
        | .brk none p => .brk none p
      else if isUrlBadChar c then .brk none (pos + 1)
      else
        match consumeUrlBodyAux css fuel (pos + 1) with
        | .ret (some v) p er => .ret (some (c :: v)) p er
        | .ret none p er => .ret none p er
        | .brk (some v) p => .brk (some (c :: v)) p
        | .brk none p => .brk none p
    else .ret (some []) pos (some .eofInUrl)

/-- Bad-URL remnant recovery loop: skip to an unescaped `)` or EOF. -/
def urlRemnantsAux (css : List Nat) : Nat → Nat → Nat
  | 0, pos => pos
  | fuel + 1, pos =>
    if pos < css.length then
      if matchAt css [92, 41] pos then urlRemnantsAux css fuel (pos + 2)
      else if nth css pos == 41 then pos + 1
      else urlRemnantsAux css fuel (pos + 1)
    else pos

def urlRemnants (css : List Nat) (pos : Nat) : Nat :=
  urlRemnantsAux css (css.length + 1) pos

/-- Code after the accumulation loop of `_consume_url`: trailing whitespace,
then `)` / EOF / fall-through into bad-url recovery. -/
def urlTail (css : List Nat) (value : Option (List Nat)) (pos : Nat)
    (error : Option ErrKind) : Option (List Nat) × Nat × Option ErrKind :=
  match value with
  | some v =>
    let p := skipWs css pos
    if p < css.length then
      if nth css p == 41 then (some v, p + 1, error)
      else (none, urlRemnants css p, some .badUrl)
    else (some v, p, if error.isNone then some .eofInUrl else error)
  | none => (none, urlRemnants css pos, some .badUrl)

/-- `_consume_url`: `pos` is just after the `(` of `url(`. -/
def consumeUrl (css : List Nat) (pos : Nat) :
    Option (List Nat) × Nat × Option ErrKind :=
  let p := skipWs css pos
  if p < css.length then
    let c := nth css p
    if c == 34 || c == 39 then
      let r := consumeQuotedString css p
      urlTail css r.1 r.2.1 r.2.2
    else if c == 41 then (some [], p + 1, none)
    else
      match consumeUrlBodyAux css (css.length + 1) p with
      | .ret v q er => (v, q, er)
      | .brk v q => urlTail css v q none
  else (some [], p, some .eofInUrl)

/-- `_consume_unicode_range`: `pos` is just after the `+` of `U+`.
Returns `(start, end, new_pos)`.  `max_pos` is computed once, so hex digits
and question marks share a single budget of six. -/
def consumeUnicodeRange (css : List Nat) (pos : Nat) : Nat × Nat × Nat :=
  let maxPos := min (pos + 6) css.length
  let d := min (runLen isHexDigit css pos) (maxPos - pos)
  let startTxt := substr css pos (pos + d)
  let q := min (runLen (fun c => c == 63) css (pos + d)) (maxPos - (pos + d))
  if q ≠ 0 then
    (hexVal (startTxt ++ List.replicate q 48),
     hexVal (startTxt ++ List.replicate q 70), pos + d + q)
  else if decide (pos + d + 1 < css.length) && nth css (pos + d) == 45 &&
          isHexDigit (nth css (pos + d + 1)) then
    let p2 := pos + d + 1
    let maxPos2 := min (p2 + 6) css.length
    let d2 := min (runLen isHexDigit css p2) (maxPos2 - p2)
    (hexVal startTxt, hexVal (substr css p2 (p2 + d2)), p2 + d2)
  else (hexVal startTxt, hexVal startTxt, pos + d)

/-- Optional exponent part `([eE][+-]?[0-9]+)?` anchored at `e`; returns the
match end and whether the group matched. -/
def expPart (css : List Nat) (e : Nat) : Nat × Bool :=
  if nth css e == 101 || nth css e == 69 then
    let q := if nth css (e + 1) == 43 || nth css (e + 1) == 45 then e + 2 else e + 1
    let k := runLen isDigit css q
    if k ≠ 0 then (q + k, true) else (e, false)
  else (e, false)

/-- `_NUMBER_RE.match(css, pos)` for `[-+]?([0-9]*\.)?[0-9]+([eE][+-]?[0-9]+)?`:
returns `(match_end, group1_matched, group2_matched)` or `none`.
Group 1 is the `digits.`-part, group 2 the exponent. -/
def numberMatch (css : List Nat) (pos : Nat) : Option (Nat × Bool × Bool) :=
  let p1 := if nth css pos == 43 || nth css pos == 45 then pos + 1 else pos
  let a := runLen isDigit css p1
  if nth css (p1 + a) == 46 && isDigit (nth css (p1 + a + 1)) then
    let b := runLen isDigit css (p1 + a + 1)
    let r := expPart css (p1 + a + 1 + b)
    some (r.1, true, r.2)
  else if a ≠ 0 then
    let r := expPart css (p1 + a)
    some (r.1, false, r.2)
  else none

/-- Component values.  Every token carries its 1-based source line and
column.  Block and function tokens carry their nested component values. -/
inductive Token where
  | whitespace (line col : Nat) (value : List Nat)
  | ident (line col : Nat) (value : List Nat)
  | atKeyword (line col : Nat) (value : List Nat)
  | hash (line col : Nat) (value : List Nat) (isIdentifier : Bool)
  | string (line col : Nat) (value : List Nat)
  | url (line col : Nat) (value : List Nat)
  | number (line col : Nat) (intValue : Option Int) (repr : List Nat)
  | percentage (line col : Nat) (intValue : Option Int) (repr : List Nat)
  | dimension (line col : Nat) (intValue : Option Int) (repr : List Nat) (unit : List Nat)
  | unicodeRange (line col : Nat) (first last : Nat)
  | comment (line col : Nat) (value : List Nat)
  | literal (line col : Nat) (value : List Nat)
  | functionBlock (line col : Nat) (name : List Nat) (args : List Token)
  | curlyBlock (line col : Nat) (content : List Token)
  | squareBlock (line col : Nat) (content : List Token)
  | parenBlock (line col : Nat) (content : List Token)
  | parseError (line col : Nat) (kind : ErrKind)

/-- Kind of an open block, recorded when the scanner pushes a stack frame. -/
inductive BlockKind where
  | curly | square | paren | func (name : List Nat)

/-- Rebuild the block token of a closed frame. -/
def mkBlock (k : BlockKind) (line col : Nat) (content : List Token) : Token :=
  match k with
  | .curly => .curlyBlock line col content
  | .square => .squareBlock line col content
  | .paren => .parenBlock line col content
  | .func n => .functionBlock line col n content

/-- One entry of the Python `stack` of `(tokens, end_char)` pairs.  The
Python code appends the (mutable, aliased) block object to the parent list
at open time; here the parent list and the data needed to rebuild the block
are saved, and the block is appended on close. -/
structure Frame where
  parent : List Token
  savedEnd : Option Nat
  line : Nat
  col : Nat
  kind : BlockKind

/-- The scanner state of `parse_component_value_list`'s main loop. -/
structure State where
  pos : Nat
  tokenStartPos : Nat
  line : Nat
  /-- `last_newline + 1`: index just after the last newline seen (`0` when
  none), so that the 1-based column of `pos` is `pos - lastNL1 + 1`. -/
  lastNL1 : Nat
  tokens : List Token
  endChar : Option Nat
  stack : List Frame

/-- Close a frame: append the completed block token to the parent list. -/
def closeFrame (f : Frame) (content : List Token) : List Token :=
  f.parent ++ [mkBlock f.kind f.line f.col content]

/-- At end of input, fold all still-open frames; each open block simply
contains everything scanned since its opener (as the Python aliasing does). -/
def finalize : List Frame → List Token → List Token
  | [], cur => cur
  | f :: rest, cur => finalize rest (closeFrame f cur)

/-- The lazy line/column bookkeeping at the top of the main loop:
`rfind`/`count` newlines between the previous token start and `pos`.
Returns the updated `(line, lastNL1)`. -/
def advanceLine (css : List Nat) (tsp pos line lastNL1 : Nat) : Nat × Nat :=
  match rfindNL css tsp pos with
  | some n => (line + 1 + countNLBetween css tsp n, n + 1)
  | none => (line, lastNL1)

/-- Result of one main-loop iteration: continue, `break` out of the loop
(unterminated comment), or raise (the `assert` in the URL branch). -/
inductive StepResult where
  | next (st : State)
  | done (st : State)
  | fail

/-- Line bookkeeping: the updated line number at the current cursor. -/
def curLine (css : List Nat) (st : State) : Nat :=
  (advanceLine css st.tokenStartPos st.pos st.line st.lastNL1).1

/-- Line bookkeeping: the updated `lastNL1` at the current cursor. -/
def curNL (css : List Nat) (st : State) : Nat :=
  (advanceLine css st.tokenStartPos st.pos st.line st.lastNL1).2

/-- The 1-based column of the current cursor. -/
def curCol (css : List Nat) (st : State) : Nat := st.pos - curNL css st + 1

/-- The state with the per-iteration bookkeeping (`token_start_pos = pos`,
line, last newline) already applied. -/
def baseSt (css : List Nat) (st : State) : State :=
  { st with
    tokenStartPos := st.pos
    line := curLine css st
    lastNL1 := curNL css st }

/-- Push a new block frame: save the current output list and `end_char`,
start accumulating into a fresh list. -/
def pushSt (css : List Nat) (st : State) (newPos : Nat) (ec : Nat) (k : BlockKind) :
    State :=
  { baseSt css st with
    pos := newPos
    tokens := []
    endChar := some ec
    stack := { parent := st.tokens
               savedEnd := st.endChar
               line := curLine css st
               col := curCol css st
               kind := k } :: st.stack }

/-- Append tokens to the current output list and move to `newPos`. -/
def emitSt (css : List Nat) (st : State) (ts : List Token) (newPos : Nat) : State :=
  { baseSt css st with
    pos := newPos
    tokens := st.tokens ++ ts }

/-- One iteration of the main scanner loop, dispatching on the character
class at the cursor, in the source's order. -/
def step (css : List Nat) (skipComments : Bool) (st : State) : StepResult :=
  if isWsChar (nth css st.pos) then
    .next (emitSt css st
      [.whitespace (curLine css st) (curCol css st)
        (substr css st.pos (skipWs css (st.pos + 1)))]
      (skipWs css (st.pos + 1)))
  else if (nth css st.pos == 85 || nth css st.pos == 117) &&
          decide (st.pos + 2 < css.length) && nth css (st.pos + 1) == 43 &&
          (isHexDigit (nth css (st.pos + 2)) || nth css (st.pos + 2) == 63) then
    .next (emitSt css st
      [.unicodeRange (curLine css st) (curCol css st)
        (consumeUnicodeRange css (st.pos + 2)).1
        (consumeUnicodeRange css (st.pos + 2)).2.1]
      (consumeUnicodeRange css (st.pos + 2)).2.2)
  else if matchAt css [45, 45, 62] st.pos then
    .next (emitSt css st [.literal (curLine css st) (curCol css st) [45, 45, 62]]
      (st.pos + 3))
  else if isIdentStart css st.pos then
    if !matchAt css [40] (consumeIdent css st.pos).2 then
      .next (emitSt css st
        [.ident (curLine css st) (curCol css st) (consumeIdent css st.pos).1]
        (consumeIdent css st.pos).2)
    else if asciiLower (consumeIdent css st.pos).1 == [117, 114, 108] &&
            (decide (css.length ≤ skipWs css ((consumeIdent css st.pos).2 + 1)) ||
             !(nth css (skipWs css ((consumeIdent css st.pos).2 + 1)) == 34 ||
               nth css (skipWs css ((consumeIdent css st.pos).2 + 1)) == 39)) then
      match (consumeUrl css ((consumeIdent css st.pos).2 + 1)).1,
            (consumeUrl css ((consumeIdent css st.pos).2 + 1)).2.2 with
      | some uv, some e =>
        -- the source's `assert error_key == 'eof-in-url'` on the
        -- non-`eof-in-string` path of the repr trimming
        if e = .eofInString ∨ e = .eofInUrl then
          .next (emitSt css st
            [.url (curLine css st) (curCol css st) uv,
             .parseError (curLine css st) (curCol css st) e]
            (consumeUrl css ((consumeIdent css st.pos).2 + 1)).2.1)
        else .fail
      | some uv, none =>
        .next (emitSt css st [.url (curLine css st) (curCol css st) uv]
          (consumeUrl css ((consumeIdent css st.pos).2 + 1)).2.1)
      | none, some e =>
        .next (emitSt css st [.parseError (curLine css st) (curCol css st) e]
          (consumeUrl css ((consumeIdent css st.pos).2 + 1)).2.1)
      | none, none =>
        .next (emitSt css st [] (consumeUrl css ((consumeIdent css st.pos).2 + 1)).2.1)
    else
      .next (pushSt css st ((consumeIdent css st.pos).2 + 1) 41
        (.func (consumeIdent css st.pos).1))
  else
    match numberMatch css st.pos with
    | some m =>
      if decide (m.1 < css.length) && isIdentStart css m.1 then
        .next (emitSt css st
          [.dimension (curLine css st) (curCol css st)
            (if !m.2.1 && !m.2.2 then some (parseIntDec (substr css st.pos m.1)) else none)
            (substr css st.pos m.1) (consumeIdent css m.1).1]
          (consumeIdent css m.1).2)
      else if matchAt css [37] m.1 then
        .next (emitSt css st
          [.percentage (curLine css st) (curCol css st)
            (if !m.2.1 && !m.2.2 then some (parseIntDec (substr css st.pos m.1)) else none)
            (substr css st.pos m.1)]
          (m.1 + 1))
      else
        .next (emitSt css st
          [.number (curLine css st) (curCol css st)
            (if !m.2.1 && !m.2.2 then some (parseIntDec (substr css st.pos m.1)) else none)
            (substr css st.pos m.1)]
          m.1)
    | none =>
      if nth css st.pos == 64 then
        if decide (st.pos + 1 < css.length) && isIdentStart css (st.pos + 1) then
          .next (emitSt css st
            [.atKeyword (curLine css st) (curCol css st) (consumeIdent css (st.pos + 1)).1]
            (consumeIdent css (st.pos + 1)).2)
        else
          .next (emitSt css st [.literal (curLine css st) (curCol css st) [64]]
            (st.pos + 1))
      else if nth css st.pos == 35 then
        if decide (st.pos + 1 < css.length) &&
           (isNameChar (nth css (st.pos + 1)) ||
            (nth css (st.pos + 1) == 92 && !matchAt css [92, 10] (st.pos + 1))) then
          .next (emitSt css st
            [.hash (curLine css st) (curCol css st) (consumeIdent css (st.pos + 1)).1
              (isIdentStart css (st.pos + 1))]
            (consumeIdent css (st.pos + 1)).2)
        else
          .next (emitSt css st [.literal (curLine css st) (curCol css st) [35]]
            (st.pos + 1))
      else if nth css st.pos == 123 then
        .next (pushSt css st (st.pos + 1) 125 .curly)
      else if nth css st.pos == 91 then
        .next (pushSt css st (st.pos + 1) 93 .square)
      else if nth css st.pos == 40 then
        .next (pushSt css st (st.pos + 1) 41 .paren)
      else if st.endChar = some (nth css st.pos) then
        match st.stack with
        | f :: rest =>
          .next { baseSt css st with
                  pos := st.pos + 1
                  tokens := closeFrame f st.tokens
                  endChar := f.savedEnd
                  stack := rest }
        | [] =>
          -- unreachable: the top-level end_char is None
          .next { baseSt css st with pos := st.pos + 1 }
      else if nth css st.pos == 125 || nth css st.pos == 93 || nth css st.pos == 41 then
        .next (emitSt css st
          [.parseError (curLine css st) (curCol css st) (.unmatched (nth css st.pos))]
          (st.pos + 1))
      else if nth css st.pos == 34 || nth css st.pos == 39 then
        .next (emitSt css st
          ((match (consumeQuotedString css st.pos).1 with
            | some v => [Token.string (curLine css st) (curCol css st) v]
            | none => []) ++
           (match (consumeQuotedString css st.pos).2.2 with
            | some e => [Token.parseError (curLine css st) (curCol css st) e]
            | none => []))
          (consumeQuotedString css st.pos).2.1)
      else if matchAt css [47, 42] st.pos then
        match findPair css 42 47 (st.pos + 2) with
        | none =>
          .done { baseSt css st with
                  pos := css.length
                  tokens := if skipComments then st.tokens
                    else st.tokens ++
                      [.comment (curLine css st) (curCol css st)
                        (substr css (st.pos + 2) css.length)] }
        | some f =>
          .next (emitSt css st
            (if skipComments then []
             else [.comment (curLine css st) (curCol css st)
                     (substr css (st.pos + 2) f)])
            (f + 2))
      else if matchAt css [60, 33, 45, 45] st.pos then
        .next (emitSt css st
          [.literal (curLine css st) (curCol css st) [60, 33, 45, 45]] (st.pos + 4))
      else if matchAt css [124, 124] st.pos then
        .next (emitSt css st
          [.literal (curLine css st) (curCol css st) [124, 124]] (st.pos + 2))
      else if nth css st.pos == 126 || nth css st.pos == 124 || nth css st.pos == 94 ||
              nth css st.pos == 36 || nth css st.pos == 42 then
        if matchAt css [61] (st.pos + 1) then
          .next (emitSt css st
            [.literal (curLine css st) (curCol css st) [nth css st.pos, 61]]
            (st.pos + 2))
        else
          .next (emitSt css st
            [.literal (curLine css st) (curCol css st) [nth css st.pos]]
            (st.pos + 1))
      else
        .next (emitSt css st
          [.literal (curLine css st) (curCol css st) [nth css st.pos]]
          (st.pos + 1))

/-- The main loop, with fuel.  `none` models a failure that the source
would raise (insufficient fuel never happens, see `parse_total`). -/
def loop (css : List Nat) (skipComments : Bool) : Nat → State → Option (List Token)
  | 0, _ => none
  | fuel + 1, st =>
    if st.pos < css.length then
      match step css skipComments st with
      | .next st' => loop css skipComments fuel st'
      | .done st' => some (finalize st'.stack st'.tokens)
      | .fail => none
    else some (finalize st.stack st.tokens)

def initState : State :=
  { pos := 0, tokenStartPos := 0, line := 1, lastNL1 := 0,
    tokens := [], endChar := none, stack := [] }

/-- `css.replace('\0', '�')`. -/
def replaceNull (css : List Nat) : List Nat :=
  css.map fun c => if c == 0 then 0xFFFD else c

/-- `css.replace('\r\n', '\n')` (left-to-right, non-overlapping). -/
def collapseCRLF : List Nat → List Nat
  | 13 :: 10 :: rest => 10 :: collapseCRLF rest
  | c :: rest => c :: collapseCRLF rest
  | [] => []

/-- `css.replace('\r', '\n').replace('\f', '\n')`. -/
def mapNL (css : List Nat) : List Nat :=
  css.map fun c => if c == 13 || c == 12 then 10 else c

/-- The input normalization at the top of `parse_component_value_list`. -/
def preprocess (css : List Nat) : List Nat :=
  mapNL (collapseCRLF (replaceNull css))

/-- `parse_component_value_list(css, skip_comments)`. -/
def parse_component_value_list (css0 : List Nat) (skipComments : Bool) :
    Option (List Token) :=
  let css := preprocess css0
  loop css skipComments (css.length + 1) initState

/-- Codepoints of a string literal, for concrete test inputs. -/
def S (s : String) : List Nat := s.toList.map Char.toNat

/-! ## Basic facts about the string helpers -/

theorem nth_eq_headD_drop (css : List Nat) (pos : Nat) :
    nth css pos = (css.drop pos).headD 0 := by
  induction css generalizing pos with
  | nil => simp [nth]
  | cons c r ih =>
    cases pos with
    | zero => simp [nth]
    | succ p => simp only [nth, List.getD_cons_succ, List.drop_succ_cons]; exact ih p

theorem drop_eq_cons_nth {css : List Nat} {pos : Nat} {c : Nat} {r : List Nat}
    (h : css.drop pos = c :: r) : nth css pos = c := by
  rw [nth_eq_headD_drop, h]; rfl

theorem drop_succ_of_drop_cons {css : List Nat} {pos : Nat} {c : Nat} {r : List Nat}
    (h : css.drop pos = c :: r) : css.drop (pos + 1) = r := by
  have := List.tail_drop css pos
  rw [h] at this
  exact this.symm

theorem runLen_eq_zero {p : Nat → Bool} {css : List Nat} {pos : Nat}
    (h : p (nth css pos) = false) : runLen p css pos = 0 := by
  unfold runLen
  cases hd : css.drop pos with
  | nil => simp [countLeading]
  | cons c r =>
    have hc := drop_eq_cons_nth hd
    simp [countLeading, hc ▸ h]

theorem runLen_succ {p : Nat → Bool} {css : List Nat} {pos : Nat}
    (hlt : pos < css.length) (h : p (nth css pos) = true) :
    runLen p css pos = runLen p css (pos + 1) + 1 := by
  unfold runLen
  cases hd : css.drop pos with
  | nil =>
    rw [List.drop_eq_nil_iff] at hd
    omega
  | cons c r =>
    have hc := drop_eq_cons_nth hd
    rw [drop_succ_of_drop_cons hd]
    simp [countLeading, hc ▸ h]

theorem countLeading_le_length (p : Nat → Bool) (l : List Nat) :
    countLeading p l ≤ l.length := by
  induction l with
  | nil => simp [countLeading]
  | cons c r ih =>
    by_cases h : p c
    · simpa [countLeading, h] using ih
    · simp [countLeading, h]

theorem runLen_le (p : Nat → Bool) (css : List Nat) (pos : Nat) :
    runLen p css pos ≤ css.length - pos := by
  simpa [runLen] using countLeading_le_length p (css.drop pos)

theorem skipWs_le (css : List Nat) (pos : Nat) : pos ≤ skipWs css pos :=
  Nat.le_add_right _ _

theorem skipWs_le_length {css : List Nat} {pos : Nat} (h : pos ≤ css.length) :
    skipWs css pos ≤ css.length := by
  have := runLen_le isWsChar css pos
  unfold skipWs
  omega

theorem matchAt_false_of_first {css : List Nat} {x : Nat} {s : List Nat} {pos : Nat}
    (h : nth css pos ≠ x) : matchAt css (x :: s) pos = false := by
  unfold matchAt
  cases hd : css.drop pos with
  | nil => rfl
  | cons c r =>
    have hc : c ≠ x := drop_eq_cons_nth hd ▸ h
    have hxc : (x == c) = false := by
      simp only [beq_eq_false_iff_ne]
      exact fun h' => hc h'.symm
    simp [matchList, hxc]

theorem consumeEscape_le (css : List Nat) (pos : Nat) :
    pos ≤ (consumeEscape css pos).2 := by
  simp only [consumeEscape]
  split_ifs <;> simp <;> omega

theorem consumeIdentAux_le (css : List Nat) (fuel pos : Nat) :
    pos ≤ (consumeIdentAux css fuel pos).2 := by
  induction fuel generalizing pos with
  | zero => simp [consumeIdentAux]
  | succ f ih =>
    unfold consumeIdentAux
    split
    · dsimp only
      split
      · exact Nat.le_trans (Nat.le_succ pos) (ih (pos + 1))
      · split
        · refine Nat.le_trans ?_ (ih (consumeEscape css (pos + 1)).2)
          exact Nat.le_trans (Nat.le_succ pos) (consumeEscape_le css (pos + 1))
        · simp
    · simp

theorem consumeIdent_le (css : List Nat) (pos : Nat) :
    pos ≤ (consumeIdent css pos).2 :=
  consumeIdentAux_le css _ pos

theorem isNameStartChar_isNameChar {c : Nat} (h : isNameStartChar c = true) :
    isNameChar c = true := by
  unfold isNameStartChar at h
  unfold isNameChar
  rcases Bool.or_eq_true_iff.mp h with h | h
  · rcases Bool.or_eq_true_iff.mp h with h | h <;> simp [h]
  · simp [h]

theorem isIdentStart_first {css : List Nat} {pos : Nat}
    (hs : isIdentStart css pos = true) :
    isNameChar (nth css pos) = true ∨
      (nth css pos == 92 && !matchAt css [92, 10] pos) = true := by
  unfold isIdentStart at hs
  by_cases h1 : isNameStartChar (nth css pos) = true
  · exact Or.inl (isNameStartChar_isNameChar h1)
  · rw [Bool.not_eq_true] at h1
    simp only [h1, Bool.false_eq_true, if_false] at hs
    by_cases h2 : (nth css pos == 45) = true
    · refine Or.inl ?_
      unfold isNameChar
      simp [h2]
    · rw [Bool.not_eq_true] at h2
      simp only [h2, Bool.false_eq_true, if_false] at hs
      by_cases h3 : (nth css pos == 92) = true
      · simp only [h3, if_true] at hs
        exact Or.inr (by simp [h3, hs])
      · rw [Bool.not_eq_true] at h3
        simp [h3] at hs

theorem consumeIdent_lt {css : List Nat} {pos : Nat}
    (hs : isIdentStart css pos = true) (hlt : pos < css.length) :
    pos < (consumeIdent css pos).2 := by
  unfold consumeIdent consumeIdentAux
  simp only [hlt, if_pos]
  rcases isIdentStart_first hs with hn | hesc
  · simp only [hn, if_pos]
    exact Nat.lt_of_lt_of_le (Nat.lt_succ_self pos) (consumeIdentAux_le css _ (pos + 1))
  · by_cases hn : isNameChar (nth css pos) = true
    · simp only [hn, if_pos]
      exact Nat.lt_of_lt_of_le (Nat.lt_succ_self pos) (consumeIdentAux_le css _ (pos + 1))
    · rw [Bool.not_eq_true] at hn
      simp only [hn, Bool.false_eq_true, if_false, hesc, if_pos]
      refine Nat.lt_of_lt_of_le (Nat.lt_succ_self pos) ?_
      exact Nat.le_trans (consumeEscape_le css (pos + 1)) (consumeIdentAux_le css _ _)

theorem snd21 {A B C : Type} (a : A) (b : B) (c : C) : ((a, b, c) : A × B × C).2.1 = b := rfl

theorem snd22 {A B C : Type} (a : A) (b : B) (c : C) : ((a, b, c) : A × B × C).2.2 = c := rfl

theorem consumeQuotedStringAux_le (css : List Nat) (quote fuel pos : Nat) :
    pos ≤ (consumeQuotedStringAux css quote fuel pos).2.1 := by
  induction fuel generalizing pos with
  | zero => simp [consumeQuotedStringAux]
  | succ f ih =>
    simp only [consumeQuotedStringAux]
    split
    · split
      · simp
      · split
        · split
          · split
            · exact Nat.le_trans (by omega) (ih (pos + 2))
            · have h1 : pos + 1 ≤ (consumeEscape css (pos + 1)).2 :=
                consumeEscape_le css (pos + 1)
              have h2 := ih (consumeEscape css (pos + 1)).2
              split <;> rename_i heq <;> rw [heq] at h2 <;>
                exact Nat.le_trans (by omega) h2
          · simp
        · split
          · simp
          · have h2 := ih (pos + 1)
            split <;> rename_i heq <;> rw [heq] at h2 <;>
              exact Nat.le_trans (by omega) h2
    · simp

theorem consumeQuotedString_lt (css : List Nat) (pos : Nat) :
    pos < (consumeQuotedString css pos).2.1 :=
  Nat.lt_of_lt_of_le (Nat.lt_succ_self pos)
    (consumeQuotedStringAux_le css _ _ (pos + 1))

theorem urlRemnantsAux_le (css : List Nat) (fuel pos : Nat) :
    pos ≤ urlRemnantsAux css fuel pos := by
  induction fuel generalizing pos with
  | zero => simp [urlRemnantsAux]
  | succ f ih =>
    unfold urlRemnantsAux
    split
    · split
      · exact Nat.le_trans (by omega) (ih (pos + 2))
      · split
        · omega
        · exact Nat.le_trans (by omega) (ih (pos + 1))
    · exact Nat.le_refl pos

theorem urlRemnants_le (css : List Nat) (pos : Nat) : pos ≤ urlRemnants css pos :=
  urlRemnantsAux_le css _ pos

theorem urlTail_some (css : List Nat) (w : List Nat) (pos : Nat) (e : Option ErrKind) :
    urlTail css (some w) pos e =
      (if skipWs css pos < css.length then
        (if nth css (skipWs css pos) == 41 then
          ((some w : Option (List Nat)), skipWs css pos + 1, e)
        else ((none : Option (List Nat)), urlRemnants css (skipWs css pos),
              (some .badUrl : Option ErrKind)))
      else ((some w : Option (List Nat)), skipWs css pos,
            if e.isNone then some .eofInUrl else e)) := rfl

theorem urlTail_none (css : List Nat) (pos : Nat) (e : Option ErrKind) :
    urlTail css none pos e =
      ((none : Option (List Nat)), urlRemnants css pos,
       (some .badUrl : Option ErrKind)) := rfl

theorem urlTail_le (css : List Nat) (v : Option (List Nat)) (pos : Nat)
    (e : Option ErrKind) : pos ≤ (urlTail css v pos e).2.1 := by
  have hws := skipWs_le css pos
  have hrem := urlRemnants_le css (skipWs css pos)
  have hrem0 := urlRemnants_le css pos
  cases v with
  | some w =>
    rw [urlTail_some]
    split
    · split <;> simp only [snd21] <;> omega
    · simp only [snd21]
      omega
  | none =>
    rw [urlTail_none]
    simp only [snd21]
    omega

/-- Position component of a `UrlBody`. -/
def urlBodyPos : UrlBody → Nat
  | .ret _ p _ => p
  | .brk _ p => p

theorem consumeUrlBodyAux_le (css : List Nat) (fuel pos : Nat) :
    pos ≤ urlBodyPos (consumeUrlBodyAux css fuel pos) := by
  induction fuel generalizing pos with
  | zero => simp [consumeUrlBodyAux, urlBodyPos]
  | succ f ih =>
    simp only [consumeUrlBodyAux]
    split
    · split
      · simp [urlBodyPos]
      · split
        · simp [urlBodyPos]
        · split
          · have h1 : pos + 1 ≤ (consumeEscape css (pos + 1)).2 :=
              consumeEscape_le css (pos + 1)
            have h2 := ih (consumeEscape css (pos + 1)).2
            split <;> rename_i heq <;> rw [heq] at h2 <;>
              simp only [urlBodyPos] at h2 ⊢ <;> omega
          · split
            · simp [urlBodyPos]
            · have h2 := ih (pos + 1)
              split <;> rename_i heq <;> rw [heq] at h2 <;>
                simp only [urlBodyPos] at h2 ⊢ <;> omega
    · simp [urlBodyPos]

theorem consumeUrl_le (css : List Nat) (pos : Nat) :
    pos ≤ (consumeUrl css pos).2.1 := by
  have hws := skipWs_le css pos
  simp only [consumeUrl]
  split
  · split
    · exact Nat.le_trans hws
        (Nat.le_trans (Nat.le_of_lt (consumeQuotedString_lt css _)) (urlTail_le css _ _ _))
    · split
      · simp only [snd21]
        omega
      · have h1 := consumeUrlBodyAux_le css (css.length + 1) (skipWs css pos)
        split <;> rename_i heq <;> rw [heq] at h1 <;>
          simp only [urlBodyPos] at h1
        · simp only [snd21]
          omega
        · exact Nat.le_trans hws (Nat.le_trans h1 (urlTail_le css _ _ _))
  · simp only [snd21]
    omega

theorem consumeUnicodeRange_le (css : List Nat) (pos : Nat) :
    pos ≤ (consumeUnicodeRange css pos).2.2 := by
  simp only [consumeUnicodeRange]
  split
  · simp only [snd22]
    omega
  · split <;> simp only [snd22] <;> omega

theorem expPart_le (css : List Nat) (e : Nat) : e ≤ (expPart css e).1 := by
  simp only [expPart]
  split
  · split <;> split <;> omega
  · exact Nat.le_refl e

theorem numberMatch_lt {css : List Nat} {pos : Nat} {m : Nat × Bool × Bool}
    (h : numberMatch css pos = some m) : pos < m.1 := by
  simp only [numberMatch] at h
  set p1 := if (nth css pos == 43 || nth css pos == 45) = true then pos + 1 else pos
    with hp1
  have hpos : pos ≤ p1 := by rw [hp1]; split <;> omega
  split at h
  · have he := expPart_le css (p1 + runLen isDigit css p1 + 1 + runLen isDigit css (p1 + runLen isDigit css p1 + 1))
    rw [← Option.some_inj.mp h]
    dsimp only
    omega
  · split at h
    · rename_i ha
      have he := expPart_le css (p1 + runLen isDigit css p1)
      rw [← Option.some_inj.mp h]
      dsimp only
      omega
    · exact absurd h (by simp)

/-! ## The URL consumer can only pair a value with an end-of-file error -/

theorem consumeUrlBodyAux_ret_err {css : List Nat} {fuel pos : Nat}
    {v : Option (List Nat)} {p : Nat} {e : ErrKind}
    (h : consumeUrlBodyAux css fuel pos = .ret v p (some e)) : e = .eofInUrl := by
  induction fuel generalizing pos v p e with
  | zero => simp [consumeUrlBodyAux] at h
  | succ f ih =>
    simp only [consumeUrlBodyAux] at h
    split at h
    · split at h
      · simp at h
      · split at h
        · simp at h
        · split at h
          · split at h <;> rename_i heq
            · injection h with h1 h2 h3
              rw [h3] at heq
              exact ih heq
            · injection h with h1 h2 h3
              rw [h3] at heq
              exact ih heq
            · simp at h
            · simp at h
          · split at h
            · simp at h
            · split at h <;> rename_i heq
              · injection h with h1 h2 h3
                rw [h3] at heq
                exact ih heq
              · injection h with h1 h2 h3
                rw [h3] at heq
                exact ih heq
              · simp at h
              · simp at h
    · cases h
      rfl

theorem urlTail_err {css : List Nat} {v : Option (List Nat)} {pos : Nat}
    {w : List Nat} {p : Nat} {e : ErrKind}
    (h : urlTail css v pos none = (some w, p, some e)) : e = .eofInUrl := by
  cases v with
  | some u =>
    rw [urlTail_some] at h
    split at h
    · split at h <;> simp at h
    · simp at h
      exact h.2.2.symm
  | none =>
    rw [urlTail_none] at h
    simp at h

/-- The invariant behind the source's `assert error_key == 'eof-in-url'`:
when `_consume_url` is entered with the first non-whitespace character not a
quote (as the caller guarantees), a non-`None` value together with a
non-`None` error forces the error to be `eof-in-url`. -/
theorem consumeUrl_err (css : List Nat) (pos : Nat)
    (hg : css.length ≤ skipWs css pos ∨
      (nth css (skipWs css pos) ≠ 34 ∧ nth css (skipWs css pos) ≠ 39))
    (v : List Nat) (p : Nat) (e : ErrKind)
    (h : consumeUrl css pos = (some v, p, some e)) : e = .eofInUrl := by
  simp only [consumeUrl] at h
  split at h
  · rename_i hlt
    have hq : (nth css (skipWs css pos) == 34 || nth css (skipWs css pos) == 39) = false := by
      rcases hg with hg | hg
      · omega
      · simp [hg.1, hg.2]
    rw [hq] at h
    simp only [Bool.false_eq_true, if_false] at h
    split at h
    · simp at h
    · split at h <;> rename_i heq
      · simp only [Prod.mk.injEq] at h
        obtain ⟨h1, h2, h3⟩ := h
        rw [h1, h3] at heq
        exact consumeUrlBodyAux_ret_err heq
      · exact urlTail_err h
  · simp at h
    exact h.2.2.symm

theorem findPairAux_le {x y : Nat} {l : List Nat} {i f : Nat}
    (h : findPairAux x y l i = some f) : i ≤ f := by
  induction l generalizing i with
  | nil => simp [findPairAux] at h
  | cons a r ih =>
    match r, h with
    | [], h => simp [findPairAux] at h
    | b :: r', h =>
      simp only [findPairAux] at h
      split at h
      · exact Nat.le_of_eq (Option.some_inj.mp h)
      · exact Nat.le_trans (by omega) (ih h)

theorem findPair_le {css : List Nat} {x y start f : Nat}
    (h : findPair css x y start = some f) : start ≤ f :=
  findPairAux_le h

/-! ## One step of the main loop advances the cursor and cannot raise -/

theorem step_next_lt {css : List Nat} {skipC : Bool} {st st' : State}
    (hpos : st.pos < css.length) (h : step css skipC st = .next st') :
    st.pos < st'.pos := by
  delta step at h
  by_cases c1 : isWsChar (nth css st.pos) = true
  · rw [if_pos c1] at h
    have := skipWs_le css (st.pos + 1)
    cases h
    dsimp only [emitSt, pushSt, baseSt]
    omega
  rw [if_neg c1] at h
  by_cases c2 : ((nth css st.pos == 85 || nth css st.pos == 117) &&
      decide (st.pos + 2 < css.length) && nth css (st.pos + 1) == 43 &&
      (isHexDigit (nth css (st.pos + 2)) || nth css (st.pos + 2) == 63)) = true
  · rw [if_pos c2] at h
    have := consumeUnicodeRange_le css (st.pos + 2)
    cases h
    dsimp only [emitSt, pushSt, baseSt]
    omega
  rw [if_neg c2] at h
  by_cases c3 : matchAt css [45, 45, 62] st.pos = true
  · rw [if_pos c3] at h
    cases h
    dsimp only [emitSt, pushSt, baseSt]
    omega
  rw [if_neg c3] at h
  by_cases c4 : isIdentStart css st.pos = true
  · rw [if_pos c4] at h
    by_cases c4a : (!matchAt css [40] (consumeIdent css st.pos).2) = true
    · rw [if_pos c4a] at h
      have := consumeIdent_lt c4 hpos
      cases h
      dsimp only [emitSt, pushSt, baseSt]
      omega
    rw [if_neg c4a] at h
    by_cases c4b : (asciiLower (consumeIdent css st.pos).1 == [117, 114, 108] &&
        (decide (css.length ≤ skipWs css ((consumeIdent css st.pos).2 + 1)) ||
         !(nth css (skipWs css ((consumeIdent css st.pos).2 + 1)) == 34 ||
           nth css (skipWs css ((consumeIdent css st.pos).2 + 1)) == 39))) = true
    · rw [if_pos c4b] at h
      split at h
      · rename_i uv e hu1 hu2
        by_cases ca : e = ErrKind.eofInString ∨ e = ErrKind.eofInUrl
        · rw [if_pos ca] at h
          have h1 := consumeIdent_lt c4 hpos
          have h2 := consumeUrl_le css ((consumeIdent css st.pos).2 + 1)
          cases h
          dsimp only [emitSt, pushSt, baseSt]
          omega
        rw [if_neg ca] at h
        exact StepResult.noConfusion h
      · rename_i uv hu1 hu2
        have h1 := consumeIdent_lt c4 hpos
        have h2 := consumeUrl_le css ((consumeIdent css st.pos).2 + 1)
        cases h
        dsimp only [emitSt, pushSt, baseSt]
        omega
      · rename_i e hu1 hu2
        have h1 := consumeIdent_lt c4 hpos
        have h2 := consumeUrl_le css ((consumeIdent css st.pos).2 + 1)
        cases h
        dsimp only [emitSt, pushSt, baseSt]
        omega
      · rename_i hu1 hu2
        have h1 := consumeIdent_lt c4 hpos
        have h2 := consumeUrl_le css ((consumeIdent css st.pos).2 + 1)
        cases h
        dsimp only [emitSt, pushSt, baseSt]
        omega
    rw [if_neg c4b] at h
    have := consumeIdent_lt c4 hpos
    cases h
    dsimp only [emitSt, pushSt, baseSt]
    omega
  rw [if_neg c4] at h
  split at h
  · rename_i m hm
    by_cases cnd : (decide (m.1 < css.length) && isIdentStart css m.1) = true
    · rw [if_pos cnd] at h
      have h1 := numberMatch_lt hm
      have h2 := consumeIdent_le css m.1
      cases h
      dsimp only [emitSt, pushSt, baseSt]
      omega
    rw [if_neg cnd] at h
    by_cases cnp : matchAt css [37] m.1 = true
    · rw [if_pos cnp] at h
      have h1 := numberMatch_lt hm
      cases h
      dsimp only [emitSt, pushSt, baseSt]
      omega
    rw [if_neg cnp] at h
    have h1 := numberMatch_lt hm
    cases h
    dsimp only [emitSt, pushSt, baseSt]
    omega
  · rename_i hm
    by_cases c5 : (nth css st.pos == 64) = true
    · rw [if_pos c5] at h
      by_cases c5a : (decide (st.pos + 1 < css.length) && isIdentStart css (st.pos + 1)) = true
      · rw [if_pos c5a] at h
        have := consumeIdent_le css (st.pos + 1)
        cases h
        dsimp only [emitSt, pushSt, baseSt]
        omega
      rw [if_neg c5a] at h
      cases h
      dsimp only [emitSt, pushSt, baseSt]
      omega
    rw [if_neg c5] at h
    by_cases c6 : (nth css st.pos == 35) = true
    · rw [if_pos c6] at h
      by_cases c6a : (decide (st.pos + 1 < css.length) &&
        (isNameChar (nth css (st.pos + 1)) ||
         (nth css (st.pos + 1) == 92 && !matchAt css [92, 10] (st.pos + 1)))) = true
      · rw [if_pos c6a] at h
        have := consumeIdent_le css (st.pos + 1)
        cases h
        dsimp only [emitSt, pushSt, baseSt]
        omega
      rw [if_neg c6a] at h
      cases h
      dsimp only [emitSt, pushSt, baseSt]
      omega
    rw [if_neg c6] at h
    by_cases c7 : (nth css st.pos == 123) = true
    · rw [if_pos c7] at h
      cases h
      dsimp only [emitSt, pushSt, baseSt]
      omega
    rw [if_neg c7] at h
    by_cases c8 : (nth css st.pos == 91) = true
    · rw [if_pos c8] at h
      cases h
      dsimp only [emitSt, pushSt, baseSt]
      omega
    rw [if_neg c8] at h
    by_cases c9 : (nth css st.pos == 40) = true
    · rw [if_pos c9] at h
      cases h
      dsimp only [emitSt, pushSt, baseSt]
      omega
    rw [if_neg c9] at h
    by_cases c10 : st.endChar = some (nth css st.pos)
    · rw [if_pos c10] at h
      split at h
      · rename_i f rest hstk
        cases h
        dsimp only [emitSt, pushSt, baseSt]
        omega
      · rename_i hstk
        cases h
        dsimp only [emitSt, pushSt, baseSt]
        omega
    rw [if_neg c10] at h
    by_cases c11 : (nth css st.pos == 125 || nth css st.pos == 93 || nth css st.pos == 41) = true
    · rw [if_pos c11] at h
      cases h
      dsimp only [emitSt, pushSt, baseSt]
      omega
    rw [if_neg c11] at h
    by_cases c12 : (nth css st.pos == 34 || nth css st.pos == 39) = true
    · rw [if_pos c12] at h
      have := consumeQuotedString_lt css st.pos
      cases h
      dsimp only [emitSt, pushSt, baseSt]
      omega
    rw [if_neg c12] at h
    by_cases c13 : matchAt css [47, 42] st.pos = true
    · rw [if_pos c13] at h
      split at h
      · rename_i hf
        exact StepResult.noConfusion h
      · rename_i f hf
        have := findPair_le hf
        cases h
        dsimp only [emitSt, pushSt, baseSt]
        omega
    rw [if_neg c13] at h
    by_cases c14 : matchAt css [60, 33, 45, 45] st.pos = true
    · rw [if_pos c14] at h
      cases h
      dsimp only [emitSt, pushSt, baseSt]
      omega
    rw [if_neg c14] at h
    by_cases c15 : matchAt css [124, 124] st.pos = true
    · rw [if_pos c15] at h
      cases h
      dsimp only [emitSt, pushSt, baseSt]
      omega
    rw [if_neg c15] at h
    by_cases c16 : (nth css st.pos == 126 || nth css st.pos == 124 || nth css st.pos == 94 ||
        nth css st.pos == 36 || nth css st.pos == 42) = true
    · rw [if_pos c16] at h
      by_cases c16a : matchAt css [61] (st.pos + 1) = true
      · rw [if_pos c16a] at h
        cases h
        dsimp only [emitSt, pushSt, baseSt]
        omega
      rw [if_neg c16a] at h
      cases h
      dsimp only [emitSt, pushSt, baseSt]
      omega
    rw [if_neg c16] at h
    cases h
    dsimp only [emitSt, pushSt, baseSt]
    omega

theorem step_no_fail {css : List Nat} {skipC : Bool} {st : State}
    (h : step css skipC st = .fail) : False := by
  delta step at h
  by_cases c1 : isWsChar (nth css st.pos) = true
  · rw [if_pos c1] at h
    exact StepResult.noConfusion h
  rw [if_neg c1] at h
  by_cases c2 : ((nth css st.pos == 85 || nth css st.pos == 117) &&
      decide (st.pos + 2 < css.length) && nth css (st.pos + 1) == 43 &&
      (isHexDigit (nth css (st.pos + 2)) || nth css (st.pos + 2) == 63)) = true
  · rw [if_pos c2] at h
    exact StepResult.noConfusion h
  rw [if_neg c2] at h
  by_cases c3 : matchAt css [45, 45, 62] st.pos = true
  · rw [if_pos c3] at h
    exact StepResult.noConfusion h
  rw [if_neg c3] at h
  by_cases c4 : isIdentStart css st.pos = true
  · rw [if_pos c4] at h
    by_cases c4a : (!matchAt css [40] (consumeIdent css st.pos).2) = true
    · rw [if_pos c4a] at h
      exact StepResult.noConfusion h
    rw [if_neg c4a] at h
    by_cases c4b : (asciiLower (consumeIdent css st.pos).1 == [117, 114, 108] &&
        (decide (css.length ≤ skipWs css ((consumeIdent css st.pos).2 + 1)) ||
         !(nth css (skipWs css ((consumeIdent css st.pos).2 + 1)) == 34 ||
           nth css (skipWs css ((consumeIdent css st.pos).2 + 1)) == 39))) = true
    · rw [if_pos c4b] at h
      split at h
      · rename_i uv e hu1 hu2
        by_cases ca : e = ErrKind.eofInString ∨ e = ErrKind.eofInUrl
        · rw [if_pos ca] at h
          exact StepResult.noConfusion h
        rw [if_neg ca] at h
        have hb := c4b
        simp only [Bool.and_eq_true, Bool.or_eq_true, decide_eq_true_eq, Bool.not_eq_true',
          Bool.or_eq_false_iff, beq_eq_false_iff_ne, beq_iff_eq] at hb
        have htr : consumeUrl css ((consumeIdent css st.pos).2 + 1) =
            ((consumeUrl css ((consumeIdent css st.pos).2 + 1)).1,
             (consumeUrl css ((consumeIdent css st.pos).2 + 1)).2.1,
             (consumeUrl css ((consumeIdent css st.pos).2 + 1)).2.2) := rfl
        rw [hu1, hu2] at htr
        have he := consumeUrl_err css ((consumeIdent css st.pos).2 + 1) hb.2 uv
          (consumeUrl css ((consumeIdent css st.pos).2 + 1)).2.1 e htr
        exact ca (Or.inr he)
      · rename_i uv hu1 hu2
        exact StepResult.noConfusion h
      · rename_i e hu1 hu2
        exact StepResult.noConfusion h
      · rename_i hu1 hu2
        exact StepResult.noConfusion h
    rw [if_neg c4b] at h
    exact StepResult.noConfusion h
  rw [if_neg c4] at h
  split at h
  · rename_i m hm
    by_cases cnd : (decide (m.1 < css.length) && isIdentStart css m.1) = true
    · rw [if_pos cnd] at h
      exact StepResult.noConfusion h
    rw [if_neg cnd] at h
    by_cases cnp : matchAt css [37] m.1 = true
    · rw [if_pos cnp] at h
      exact StepResult.noConfusion h
    rw [if_neg cnp] at h
    exact StepResult.noConfusion h
  · rename_i hm
    by_cases c5 : (nth css st.pos == 64) = true
    · rw [if_pos c5] at h
      by_cases c5a : (decide (st.pos + 1 < css.length) && isIdentStart css (st.pos + 1)) = true
      · rw [if_pos c5a] at h
        exact StepResult.noConfusion h
      rw [if_neg c5a] at h
      exact StepResult.noConfusion h
    rw [if_neg c5] at h
    by_cases c6 : (nth css st.pos == 35) = true
    · rw [if_pos c6] at h
      by_cases c6a : (decide (st.pos + 1 < css.length) &&
        (isNameChar (nth css (st.pos + 1)) ||
         (nth css (st.pos + 1) == 92 && !matchAt css [92, 10] (st.pos + 1)))) = true
      · rw [if_pos c6a] at h
        exact StepResult.noConfusion h
      rw [if_neg c6a] at h
      exact StepResult.noConfusion h
    rw [if_neg c6] at h
    by_cases c7 : (nth css st.pos == 123) = true
    · rw [if_pos c7] at h
      exact StepResult.noConfusion h
    rw [if_neg c7] at h
    by_cases c8 : (nth css st.pos == 91) = true
    · rw [if_pos c8] at h
      exact StepResult.noConfusion h
    rw [if_neg c8] at h
    by_cases c9 : (nth css st.pos == 40) = true
    · rw [if_pos c9] at h
      exact StepResult.noConfusion h
    rw [if_neg c9] at h
    by_cases c10 : st.endChar = some (nth css st.pos)
    · rw [if_pos c10] at h
      split at h
      · rename_i f rest hstk
        exact StepResult.noConfusion h
      · rename_i hstk
        exact StepResult.noConfusion h
    rw [if_neg c10] at h
    by_cases c11 : (nth css st.pos == 125 || nth css st.pos == 93 || nth css st.pos == 41) = true
    · rw [if_pos c11] at h
      exact StepResult.noConfusion h
    rw [if_neg c11] at h
    by_cases c12 : (nth css st.pos == 34 || nth css st.pos == 39) = true
    · rw [if_pos c12] at h
      exact StepResult.noConfusion h
    rw [if_neg c12] at h
    by_cases c13 : matchAt css [47, 42] st.pos = true
    · rw [if_pos c13] at h
      split at h
      · rename_i hf
        exact StepResult.noConfusion h
      · rename_i f hf
        exact StepResult.noConfusion h
    rw [if_neg c13] at h
    by_cases c14 : matchAt css [60, 33, 45, 45] st.pos = true
    · rw [if_pos c14] at h
      exact StepResult.noConfusion h
    rw [if_neg c14] at h
    by_cases c15 : matchAt css [124, 124] st.pos = true
    · rw [if_pos c15] at h
      exact StepResult.noConfusion h
    rw [if_neg c15] at h
    by_cases c16 : (nth css st.pos == 126 || nth css st.pos == 124 || nth css st.pos == 94 ||
        nth css st.pos == 36 || nth css st.pos == 42) = true
    · rw [if_pos c16] at h
      by_cases c16a : matchAt css [61] (st.pos + 1) = true
      · rw [if_pos c16a] at h
        exact StepResult.noConfusion h
      rw [if_neg c16a] at h
      exact StepResult.noConfusion h
    rw [if_neg c16] at h
    exact StepResult.noConfusion h

/-! ## Totality of the scanner (claim C1) -/

theorem loop_isSome (css : List Nat) (skipC : Bool) :
    ∀ fuel (st : State), css.length - st.pos < fuel →
      (loop css skipC fuel st).isSome = true := by
  intro fuel
  induction fuel with
  | zero => intro st h; omega
  | succ f ih =>
    intro st h
    simp only [loop]
    split
    · rename_i hlt
      cases hres : step css skipC st with
      | next st' =>
        refine ih st' ?_
        have := step_next_lt hlt hres
        omega
      | done st' => simp
      | fail => exact absurd hres step_no_fail
    · simp

/-- **C1.**  For every input string and every value of the `skip_comments`
flag, `parse_component_value_list` terminates, raises no exception (the
embedding returns `none` exactly where the source would raise or loop), and
returns some (possibly empty) list of component values. -/
theorem parse_total (css0 : List Nat) (skipComments : Bool) :
    ∃ ts : List Token, parse_component_value_list css0 skipComments = some ts := by
  have h := loop_isSome (preprocess css0) skipComments
    ((preprocess css0).length + 1) initState (by simp [initState])
  unfold parse_component_value_list
  exact Option.isSome_iff_exists.mp h

theorem isIdentStart_false {css : List Nat} {pos : Nat}
    (h1 : isNameStartChar (nth css pos) = false)
    (h2 : nth css pos ≠ 45) (h3 : nth css pos ≠ 92) :
    isIdentStart css pos = false := by
  simp [isIdentStart, h1, h2, h3]

theorem numberMatch_none {css : List Nat} {pos : Nat}
    (h43 : nth css pos ≠ 43) (h45 : nth css pos ≠ 45)
    (hd : isDigit (nth css pos) = false) (h46 : nth css pos ≠ 46) :
    numberMatch css pos = none := by
  have hsign : (nth css pos == 43 || nth css pos == 45) = false := by
    simp [h43, h45]
  have ha : runLen isDigit css pos = 0 := runLen_eq_zero hd
  simp only [numberMatch, hsign, Bool.false_eq_true, if_false, ha, Nat.add_zero]
  simp [h46]

/-! ## Unmatched closing brackets (claim C2) -/

/-- Auxiliary to C2, for a single concrete closer character. -/
theorem unmatched_closer_aux (css : List Nat) (skipC : Bool) (st : State)
    (hch : nth css st.pos = 125 ∨ nth css st.pos = 93 ∨ nth css st.pos = 41)
    (hne : ¬ st.endChar = some (nth css st.pos)) :
    step css skipC st = .next (emitSt css st
      [.parseError (curLine css st) (curCol css st) (.unmatched (nth css st.pos))]
      (st.pos + 1)) := by
  rcases hch with hch | hch | hch <;>
  · have h3 : matchAt css [45, 45, 62] st.pos = false :=
      matchAt_false_of_first (by rw [hch]; decide)
    have h4 : isIdentStart css st.pos = false :=
      isIdentStart_false (by rw [hch]; decide) (by rw [hch]; decide)
        (by rw [hch]; decide)
    have hm : numberMatch css st.pos = none :=
      numberMatch_none (by rw [hch]; decide) (by rw [hch]; decide)
        (by rw [hch]; decide) (by rw [hch]; decide)
    delta step
    rw [if_neg (show ¬ (isWsChar (nth css st.pos) = true) by rw [hch]; decide)]
    rw [if_neg (show ¬ (((nth css st.pos == 85 || nth css st.pos == 117) &&
        decide (st.pos + 2 < css.length) && nth css (st.pos + 1) == 43 &&
        (isHexDigit (nth css (st.pos + 2)) || nth css (st.pos + 2) == 63)) = true) by simp [hch])]
    rw [if_neg (show ¬ (matchAt css [45, 45, 62] st.pos = true) by simp [h3])]
    rw [if_neg (show ¬ (isIdentStart css st.pos = true) by simp [h4])]
    simp only [hm]
    rw [if_neg (show ¬ ((nth css st.pos == 64) = true) by rw [hch]; decide)]
    rw [if_neg (show ¬ ((nth css st.pos == 35) = true) by rw [hch]; decide)]
    rw [if_neg (show ¬ ((nth css st.pos == 123) = true) by rw [hch]; decide)]
    rw [if_neg (show ¬ ((nth css st.pos == 91) = true) by rw [hch]; decide)]
    rw [if_neg (show ¬ ((nth css st.pos == 40) = true) by rw [hch]; decide)]
    rw [if_neg hne]
    rw [if_pos (show (nth css st.pos == 125 || nth css st.pos == 93 || nth css st.pos == 41) = true by rw [hch]; decide)]

/-- **C2.**  A `\x7d`, `]` or `)` that is not the innermost open block's
expected closer (in particular, when no block is open) appends a single
`ParseError` token at the current position to the current (innermost) token
list, closes nothing — the frame stack and the expected end character are
unchanged — and the scanner resumes one character later appending to the
same list; `)` can therefore never close a `\x7b` or `[` block, whose
expected closer differs from `)`. -/
theorem unmatched_closer (css : List Nat) (skipC : Bool) (st : State)
    (hch : nth css st.pos = 125 ∨ nth css st.pos = 93 ∨ nth css st.pos = 41)
    (hne : ¬ st.endChar = some (nth css st.pos)) :
    ∃ st', step css skipC st = .next st' ∧
      st'.tokens = st.tokens ++
        [.parseError (curLine css st) (curCol css st) (.unmatched (nth css st.pos))] ∧
      st'.stack = st.stack ∧ st'.endChar = st.endChar ∧ st'.pos = st.pos + 1 := by
  exact ⟨_, unmatched_closer_aux css skipC st hch hne, rfl, rfl, rfl, rfl⟩

/-- Witness for C2: an unmatched `)` at the top level of the input `")"`. -/
theorem unmatched_closer_witness :
    ∃ st', step [41] false initState = .next st' ∧
      st'.tokens = [.parseError 1 1 (.unmatched 41)] ∧
      st'.stack = [] ∧ st'.endChar = none ∧ st'.pos = 1 :=
  unmatched_closer [41] false initState (Or.inr (Or.inr rfl)) (by decide)

/-! ## Bad strings stop at the newline and leave it unconsumed (claim C3) -/

theorem quotedAux_badString {css : List Nat} {quote fuel pos : Nat}
    {v : Option (List Nat)} {p : Nat}
    (h : consumeQuotedStringAux css quote fuel pos = (v, p, some .badString)) :
    v = none ∧ p < css.length ∧ nth css p = 10 := by
  induction fuel generalizing pos v p with
  | zero => simp [consumeQuotedStringAux] at h
  | succ f ih =>
    simp only [consumeQuotedStringAux] at h
    split at h
    · rename_i hlt
      split at h
      · simp at h
      · split at h
        · split at h
          · split at h
            · exact ih h
            · split at h <;> rename_i heq
              · injection h with h1 h2
                injection h2 with h2 h3
                rw [h3] at heq
                rcases ih heq with ⟨hv, _, _⟩
                simp at hv
              · injection h with h1 h2
                injection h2 with h2 h3
                rw [h1, h2, h3] at heq
                exact ih heq
          · simp at h
        · split at h
          · rename_i hnl
            injection h with h1 h2
            injection h2 with h2 h3
            refine ⟨h1.symm, ?_, ?_⟩
            · omega
            · rw [← h2]
              simpa using hnl
          · split at h <;> rename_i heq
            · injection h with h1 h2
              injection h2 with h2 h3
              rw [h3] at heq
              rcases ih heq with ⟨hv, _, _⟩
              simp at hv
            · injection h with h1 h2
              injection h2 with h2 h3
              rw [h1, h2, h3] at heq
              exact ih heq
    · simp at h

theorem quoted_badString {css : List Nat} {pos : Nat}
    {v : Option (List Nat)} {p : Nat}
    (h : consumeQuotedString css pos = (v, p, some .badString)) :
    v = none ∧ p < css.length ∧ nth css p = 10 :=
  quotedAux_badString h

/-- The whitespace branch of the scanner. -/
theorem ws_step (css : List Nat) (skipC : Bool) (st : State)
    (hch : isWsChar (nth css st.pos) = true) :
    step css skipC st = .next (emitSt css st
      [.whitespace (curLine css st) (curCol css st)
        (substr css st.pos (skipWs css (st.pos + 1)))]
      (skipWs css (st.pos + 1))) := by
  delta step
  rw [if_pos hch]

/-- The quoted-string branch of the scanner: with a quote at the cursor (and
the loop's invariant that the expected closer is a bracket or absent), the
step appends the String token (when a value is produced) and the ParseError
(when an error is signalled), and moves to the consumer's new position. -/
theorem string_step (css : List Nat) (skipC : Bool) (st : State)
    (hch : nth css st.pos = 34 ∨ nth css st.pos = 39)
    (hec : st.endChar = none ∨ st.endChar = some 41 ∨ st.endChar = some 93 ∨
      st.endChar = some 125) :
    step css skipC st = .next (emitSt css st
      ((match (consumeQuotedString css st.pos).1 with
        | some v => [Token.string (curLine css st) (curCol css st) v]
        | none => []) ++
       (match (consumeQuotedString css st.pos).2.2 with
        | some e => [Token.parseError (curLine css st) (curCol css st) e]
        | none => []))
      (consumeQuotedString css st.pos).2.1) := by
  have hne : ¬ st.endChar = some (nth css st.pos) := by
    rcases hch with hch | hch <;> rcases hec with hec | hec | hec | hec <;>
      simp [hch, hec]
  have h3 : matchAt css [45, 45, 62] st.pos = false :=
    matchAt_false_of_first (by rcases hch with hch | hch <;> rw [hch] <;> decide)
  have h4 : isIdentStart css st.pos = false :=
    isIdentStart_false (by rcases hch with hch | hch <;> rw [hch] <;> decide)
      (by rcases hch with hch | hch <;> rw [hch] <;> decide)
      (by rcases hch with hch | hch <;> rw [hch] <;> decide)
  have hm : numberMatch css st.pos = none :=
    numberMatch_none (by rcases hch with hch | hch <;> rw [hch] <;> decide)
      (by rcases hch with hch | hch <;> rw [hch] <;> decide)
      (by rcases hch with hch | hch <;> rw [hch] <;> decide)
      (by rcases hch with hch | hch <;> rw [hch] <;> decide)
  delta step
  rw [if_neg (show ¬ (isWsChar (nth css st.pos) = true) by
    rcases hch with hch | hch <;> rw [hch] <;> decide)]
  rw [if_neg (show ¬ (((nth css st.pos == 85 || nth css st.pos == 117) &&
      decide (st.pos + 2 < css.length) && nth css (st.pos + 1) == 43 &&
      (isHexDigit (nth css (st.pos + 2)) || nth css (st.pos + 2) == 63)) = true) by
    rcases hch with hch | hch <;> simp [hch])]
  rw [if_neg (show ¬ (matchAt css [45, 45, 62] st.pos = true) by simp [h3])]
  rw [if_neg (show ¬ (isIdentStart css st.pos = true) by simp [h4])]
  simp only [hm]
  rw [if_neg (show ¬ ((nth css st.pos == 64) = true) by
    rcases hch with hch | hch <;> rw [hch] <;> decide)]
  rw [if_neg (show ¬ ((nth css st.pos == 35) = true) by
    rcases hch with hch | hch <;> rw [hch] <;> decide)]
  rw [if_neg (show ¬ ((nth css st.pos == 123) = true) by
    rcases hch with hch | hch <;> rw [hch] <;> decide)]
  rw [if_neg (show ¬ ((nth css st.pos == 91) = true) by
    rcases hch with hch | hch <;> rw [hch] <;> decide)]
  rw [if_neg (show ¬ ((nth css st.pos == 40) = true) by
    rcases hch with hch | hch <;> rw [hch] <;> decide)]
  rw [if_neg hne]
  rw [if_neg (show ¬ ((nth css st.pos == 125 || nth css st.pos == 93 || nth css st.pos == 41) = true) by
    rcases hch with hch | hch <;> rw [hch] <;> decide)]
  rw [if_pos (show (nth css st.pos == 34 || nth css st.pos == 39) = true by
    rcases hch with hch | hch <;> rw [hch] <;> decide)]

/-- **C3.**  When a quoted string's body reaches an unescaped newline before
the closing quote (the consumer signals `bad-string`): no String value is
produced, only a `bad-string` ParseError token is appended (at the string's
start position), the newline is NOT consumed — the scanner resumes exactly
at the newline character — and the next step tokenizes it as the start of a
Whitespace token. -/
theorem bad_string_newline (css : List Nat) (skipC : Bool) (st : State)
    (hq : nth css st.pos = 34 ∨ nth css st.pos = 39)
    (hec : st.endChar = none ∨ st.endChar = some 41 ∨ st.endChar = some 93 ∨
      st.endChar = some 125)
    (v : Option (List Nat)) (p : Nat)
    (hr : consumeQuotedString css st.pos = (v, p, some .badString)) :
    v = none ∧ p < css.length ∧ nth css p = 10 ∧
    step css skipC st = .next (emitSt css st
      [.parseError (curLine css st) (curCol css st) .badString] p) ∧
    (∀ st', st' = emitSt css st
        [.parseError (curLine css st) (curCol css st) .badString] p →
      step css skipC st' = .next (emitSt css st'
        [.whitespace (curLine css st') (curCol css st')
          (substr css p (skipWs css (p + 1)))]
        (skipWs css (p + 1)))) := by
  obtain ⟨hv, hp, hnl⟩ := quoted_badString hr
  subst hv
  refine ⟨rfl, hp, hnl, ?_, ?_⟩
  · have hs := string_step css skipC st hq hec
    rw [hr] at hs
    simpa using hs
  · intro st' hst'
    have hpos' : st'.pos = p := by rw [hst']; rfl
    have hw : isWsChar (nth css st'.pos) = true := by
      rw [hpos', hnl]; rfl
    have := ws_step css skipC st' hw
    rw [hpos'] at this
    exact this

/-- Witness for C3 on the concrete input sequence `[34, 97, 10, 98]`
(a double quote, `a`, a newline, `b`). -/
theorem bad_string_newline_witness :
    nth [34, 97, 10, 98] 2 = 10 ∧
    step [34, 97, 10, 98] false initState = .next (emitSt [34, 97, 10, 98] initState
      [.parseError 1 1 .badString] 2) ∧
    step [34, 97, 10, 98] false
        (emitSt [34, 97, 10, 98] initState [.parseError 1 1 .badString] 2) =
      .next (emitSt [34, 97, 10, 98]
        (emitSt [34, 97, 10, 98] initState [.parseError 1 1 .badString] 2)
        [.whitespace 1 3 [10]] 3) := by
  have h := bad_string_newline [34, 97, 10, 98] false initState (Or.inl rfl)
    (Or.inl rfl) none 2 rfl
  exact ⟨h.2.2.1, h.2.2.2.1, h.2.2.2.2 _ rfl⟩

/-! ## Unicode-range shared six-character budget (claim C4) -/

/-- **C4.**  In `_consume_unicode_range` the hex digits of the start text
and the following question marks share a single budget of six characters
(`max_pos` is computed once); with `q > 0` question marks the start value is
the hex text extended with `q` `0` digits (codepoint 48) and the end value
the hex text extended with `q` `F` digits (codepoint 70).  In particular
tokenizing `U+1F??` yields one UnicodeRange token with
start = `0x1F00 = 7936` and end = `0x1FFF = 8191`. -/
theorem unicode_range_budget :
    (∀ (css : List Nat) (pos d q : Nat),
      d = min (runLen isHexDigit css pos) (min (pos + 6) css.length - pos) →
      q = min (runLen (fun c => c == 63) css (pos + d))
            (min (pos + 6) css.length - (pos + d)) →
      d + q ≤ 6 ∧
      (0 < q →
        consumeUnicodeRange css pos =
          (hexVal (substr css pos (pos + d) ++ List.replicate q 48),
           hexVal (substr css pos (pos + d) ++ List.replicate q 70),
           pos + d + q))) ∧
    parse_component_value_list [85, 43, 49, 70, 63, 63] false =
      some [.unicodeRange 1 1 7936 8191] := by
  constructor
  · intro css pos d q hd hq
    constructor
    · have h1 : min (pos + 6) css.length ≤ pos + 6 := Nat.min_le_left _ _
      have h2 : d ≤ min (pos + 6) css.length - pos := hd ▸ Nat.min_le_right _ _
      have h3 : q ≤ min (pos + 6) css.length - (pos + d) := hq ▸ Nat.min_le_right _ _
      omega
    · intro hqpos
      subst hd
      subst hq
      simp only [consumeUnicodeRange]
      rw [if_pos (by omega)]
  · rfl

/-- Witness for C4: the range text `1F??` (two hex digits, two wildcards)
consumes 2 + 2 ≤ 6 characters and yields start `0x1F00`, end `0x1FFF`. -/
theorem unicode_range_budget_witness :
    (2 : Nat) + 2 ≤ 6 ∧
    consumeUnicodeRange [49, 70, 63, 63] 0 = (7936, 8191, 4) := by
  have h := unicode_range_budget.1 [49, 70, 63, 63] 0 2 2 (by decide) (by decide)
  exact ⟨h.1, h.2 (by decide)⟩

/-! ## Escape decoding (claim C6) -/

theorem nth_of_ge {css : List Nat} {pos : Nat} (h : css.length ≤ pos) :
    nth css pos = 0 := by
  rw [nth_eq_headD_drop, List.drop_eq_nil_iff.mpr h]
  rfl

theorem runLen_of_ge {p : Nat → Bool} {css : List Nat} {pos : Nat}
    (h : css.length ≤ pos) : runLen p css pos = 0 := by
  unfold runLen
  rw [List.drop_eq_nil_iff.mpr h]
  rfl

/-- **C6.**  `_consume_escape` (entered just after a backslash that does not
precede a newline): at end of input it yields the replacement character
U+FFFD without moving; if the next character is not a hex digit it is taken
verbatim; otherwise it consumes `d` hex digits with `1 ≤ d ≤ 6` plus at most
one following whitespace character and yields the encoded codepoint, except
that codepoint zero or a codepoint above `sys.maxunicode = 0x10FFFF` yields
U+FFFD. -/
theorem escape_decode : ∀ (css : List Nat) (pos : Nat),
    (css.length ≤ pos → consumeEscape css pos = (0xFFFD, pos)) ∧
    (pos < css.length → isHexDigit (nth css pos) = false →
      consumeEscape css pos = (nth css pos, pos + 1)) ∧
    (isHexDigit (nth css pos) = true → pos < css.length →
      ∃ d w, 1 ≤ d ∧ d ≤ 6 ∧ w ≤ 1 ∧
        d = min (runLen isHexDigit css pos) 6 ∧
        consumeEscape css pos =
          ((if 0 < hexVal (substr css pos (pos + d)) ∧
               hexVal (substr css pos (pos + d)) ≤ 0x10FFFF
            then hexVal (substr css pos (pos + d)) else 0xFFFD),
           pos + d + w)) := by
  intro css pos
  refine ⟨?_, ?_, ?_⟩
  · intro hge
    have h0 : runLen isHexDigit css pos = 0 := runLen_of_ge hge
    simp [consumeEscape, h0, Nat.not_lt.mpr hge]
  · intro hlt hd
    simp [consumeEscape, runLen_eq_zero hd, hlt]
  · intro hhex hlt
    have hrun : 1 ≤ runLen isHexDigit css pos := by
      rw [runLen_succ hlt hhex]
      omega
    refine ⟨min (runLen isHexDigit css pos) 6,
      (if (isWsChar (nth css (pos + min (runLen isHexDigit css pos) 6)) &&
          decide (pos + min (runLen isHexDigit css pos) 6 < css.length)) = true
       then 1 else 0),
      ?_, Nat.min_le_right _ _, ?_, rfl, ?_⟩
    · have h6 : (1 : Nat) ≤ 6 := by omega
      exact Nat.le_min.mpr ⟨hrun, h6⟩
    · split <;> omega
    · simp only [consumeEscape]
      rw [if_pos (show min (runLen isHexDigit css pos) 6 ≠ 0 by
        have := Nat.le_min.mpr ⟨hrun, show (1:Nat) ≤ 6 by omega⟩
        omega)]
      simp only [Prod.mk.injEq]
      refine ⟨by trivial, ?_⟩
      split <;> omega

/-- Witness for C6 on `[52, 49, 32, 120]` (the text `41 x`): at position 0
the escape `41 ` decodes to `A` (0x41) consuming two digits and one space;
at position 3 the non-hex `x` is taken verbatim; at position 4 (end of
input) the replacement character results. -/
theorem escape_decode_witness :
    consumeEscape [52, 49, 32, 120] 4 = (0xFFFD, 4) ∧
    consumeEscape [52, 49, 32, 120] 3 = (120, 4) ∧
    consumeEscape [52, 49, 32, 120] 0 = (65, 3) := by
  refine ⟨(escape_decode [52, 49, 32, 120] 4).1 (by decide),
    (escape_decode [52, 49, 32, 120] 3).2.1 (by decide) (by decide), ?_⟩
  obtain ⟨d, w, h1, h6, hw, hd, heq⟩ :=
    (escape_decode [52, 49, 32, 120] 0).2.2 (by decide) (by decide)
  have hd2 : d = 2 := by rw [hd]; decide
  subst hd2
  have hsnd : (consumeEscape [52, 49, 32, 120] 0).2 = 3 := by decide
  have hX : 0 + 2 + w = 3 := (congrArg Prod.snd heq).symm.trans hsnd
  have hw1 : w = 1 := by omega
  subst hw1
  rw [heq]
  decide

/-! ## Numeric literal recognition (claim C7, corrected) -/

theorem runLen_pos_first {p : Nat → Bool} {css : List Nat} {pos : Nat}
    (h : 0 < runLen p css pos) : p (nth css pos) = true := by
  by_cases hp : p (nth css pos) = true
  · exact hp
  · rw [runLen_eq_zero (Bool.not_eq_true _ ▸ hp)] at h
    omega

/-- End of the optional `[-+]?` sign of a numeric literal. -/
def signEnd (css : List Nat) (pos : Nat) : Nat :=
  if nth css pos == 43 || nth css pos == 45 then pos + 1 else pos

/-- **C7 (counterexample to the claim as stated).**  The input `.5`
(codepoints `[46, 53]`) produces a Number token starting at position 1:1
although its literal has a decimal point with no digit before it: the digits
before the decimal point are optional (`([0-9]*\.)?`), so "at least one
digit on each side of the decimal point" does not hold on this code. -/
theorem number_leading_dot_counterexample :
    parse_component_value_list [46, 53] false = some [.number 1 1 none [46, 53]] ∧
    nth [46, 53] 0 = 46 ∧ isDigit (nth [46, 53] 0) = false :=
  ⟨rfl, rfl, rfl⟩

/-- **C7 (amended).**  A numeric literal is recognized (the Number /
Percentage / Dimension path is taken) exactly when, after the optional
sign, there is at least one digit, or a decimal point followed immediately
by a digit: at least one digit is required after the optional decimal
point, while digits before the point are optional.  Every match contains at
least one digit; where the condition fails, no number match starts at that
position. -/
theorem number_recognition : ∀ (css : List Nat) (pos : Nat),
    ((numberMatch css pos).isSome = true ↔
      (0 < runLen isDigit css (signEnd css pos) ∨
       (nth css (signEnd css pos + runLen isDigit css (signEnd css pos)) = 46 ∧
        isDigit (nth css (signEnd css pos + runLen isDigit css (signEnd css pos) + 1))
          = true))) ∧
    (∀ m : Nat × Bool × Bool, numberMatch css pos = some m →
      ∃ i, pos ≤ i ∧ i < m.1 ∧ isDigit (nth css i) = true) := by
  intro css pos
  have hb : ∀ q, isDigit (nth css q) = true → 0 < runLen isDigit css q := by
    intro q hq
    by_cases hlen : q < css.length
    · rw [runLen_succ hlen hq]
      omega
    · rw [nth_of_ge (by omega)] at hq
      exact absurd hq (by decide)
  constructor
  · simp only [numberMatch]
    split <;> rename_i hsgn
    case isTrue =>
      have hSE : signEnd css pos = pos + 1 := by simp [signEnd, hsgn]
      rw [hSE]
      split <;> rename_i hdot
      · rw [Bool.and_eq_true, beq_iff_eq] at hdot
        simp only [Option.isSome_some, true_iff]
        exact Or.inr hdot
      · split <;> rename_i ha
        · simp only [Option.isSome_some, true_iff]
          exact Or.inl (by omega)
        · simp only [Option.isSome_none, Bool.false_eq_true, false_iff]
          intro hcon
          rcases hcon with hcon | hcon
          · omega
          · rw [Bool.and_eq_true, beq_iff_eq] at hdot
            push_neg at hdot
            by_cases h46 : nth css (pos + 1 + runLen isDigit css (pos + 1)) = 46
            · exact absurd (hdot h46) (by simp [hcon.2])
            · exact h46 hcon.1
    case isFalse =>
      have hSE : signEnd css pos = pos := by simp [signEnd, hsgn]
      rw [hSE]
      split <;> rename_i hdot
      · rw [Bool.and_eq_true, beq_iff_eq] at hdot
        simp only [Option.isSome_some, true_iff]
        exact Or.inr hdot
      · split <;> rename_i ha
        · simp only [Option.isSome_some, true_iff]
          exact Or.inl (by omega)
        · simp only [Option.isSome_none, Bool.false_eq_true, false_iff]
          intro hcon
          rcases hcon with hcon | hcon
          · omega
          · rw [Bool.and_eq_true, beq_iff_eq] at hdot
            push_neg at hdot
            by_cases h46 : nth css (pos + runLen isDigit css (pos)) = 46
            · exact absurd (hdot h46) (by simp [hcon.2])
            · exact h46 hcon.1
  · intro m hm
    simp only [numberMatch] at hm
    split at hm <;> rename_i hsgn
    case isTrue =>
      split at hm <;> rename_i hdot
      · rw [Bool.and_eq_true, beq_iff_eq] at hdot
        have hb2 : 0 < runLen isDigit css (pos + 1 + runLen isDigit css (pos + 1) + 1) :=
          hb _ hdot.2
        refine ⟨pos + 1 + runLen isDigit css (pos + 1) + 1, by omega, ?_, hdot.2⟩
        have he := expPart_le css (pos + 1 + runLen isDigit css (pos + 1) + 1 +
          runLen isDigit css (pos + 1 + runLen isDigit css (pos + 1) + 1))
        have hm1 : m.1 = (expPart css (pos + 1 + runLen isDigit css (pos + 1) + 1 +
            runLen isDigit css (pos + 1 + runLen isDigit css (pos + 1) + 1))).1 := by
          injection hm with hm2
          rw [← hm2]
        rw [hm1]
        omega
      · split at hm <;> rename_i ha
        · refine ⟨pos + 1, by omega, ?_, runLen_pos_first (by omega)⟩
          have he := expPart_le css (pos + 1 + runLen isDigit css (pos + 1))
          have hm1 : m.1 = (expPart css (pos + 1 + runLen isDigit css (pos + 1))).1 := by
            injection hm with hm2
            rw [← hm2]
          rw [hm1]
          omega
        · exact absurd hm (by simp)
    case isFalse =>
      split at hm <;> rename_i hdot
      · rw [Bool.and_eq_true, beq_iff_eq] at hdot
        have hb2 : 0 < runLen isDigit css (pos + runLen isDigit css (pos) + 1) :=
          hb _ hdot.2
        refine ⟨pos + runLen isDigit css (pos) + 1, by omega, ?_, hdot.2⟩
        have he := expPart_le css (pos + runLen isDigit css (pos) + 1 +
          runLen isDigit css (pos + runLen isDigit css (pos) + 1))
        have hm1 : m.1 = (expPart css (pos + runLen isDigit css (pos) + 1 +
            runLen isDigit css (pos + runLen isDigit css (pos) + 1))).1 := by
          injection hm with hm2
          rw [← hm2]
        rw [hm1]
        omega
      · split at hm <;> rename_i ha
        · refine ⟨pos, by omega, ?_, runLen_pos_first (by omega)⟩
          have he := expPart_le css (pos + runLen isDigit css (pos))
          have hm1 : m.1 = (expPart css (pos + runLen isDigit css (pos))).1 := by
            injection hm with hm2
            rw [← hm2]
          rw [hm1]
          omega
        · exact absurd hm (by simp)

/-- Witness for the amended C7: on input `.5` the recognition condition
holds via the dot-then-digit alternative, and the match contains a digit. -/
theorem number_recognition_witness :
    (numberMatch [46, 53] 0).isSome = true ∧
    ∃ i, 0 ≤ i ∧ i < 2 ∧ isDigit (nth [46, 53] i) = true := by
  refine ⟨((number_recognition [46, 53] 0).1).mpr (Or.inr ⟨by decide, by decide⟩), ?_⟩
  have h := (number_recognition [46, 53] 0).2 (2, true, false) (by decide)
  simpa using h

/-! ## URL errors paired with a value are always `eof-in-url` (claim C10) -/

/-- **C10.**  When `_consume_url` is invoked as the scanner invokes it —
the first non-whitespace character after `url(` is not a quote (or the
input has ended) — a non-`None` value together with a non-`None` error
forces the error kind `eof-in-url`; the `eof-in-string` branch of the URL
repr-trimming code is therefore unreachable and the `assert` there never
fails, which is reflected by the scanner step never producing the failure
result. -/
theorem url_error_kind :
    (∀ (css : List Nat) (pos : Nat),
      (css.length ≤ skipWs css pos ∨
        (nth css (skipWs css pos) ≠ 34 ∧ nth css (skipWs css pos) ≠ 39)) →
      ∀ (v : List Nat) (p : Nat) (e : ErrKind),
        consumeUrl css pos = (some v, p, some e) → e = .eofInUrl) ∧
    (∀ (css : List Nat) (skipC : Bool) (st : State), step css skipC st ≠ .fail) :=
  ⟨fun css pos hg v p e h => consumeUrl_err css pos hg v p e h,
   fun _ _ _ h => step_no_fail h⟩

/-- Witness for C10: `url(a` (codepoints `[117, 114, 108, 40, 97]`) ends
inside the URL body, producing value `a` with error `eof-in-url`. -/
theorem url_error_kind_witness :
    ErrKind.eofInUrl = ErrKind.eofInUrl ∧
    step [117, 114, 108, 40, 97] false initState ≠ .fail :=
  ⟨url_error_kind.1 [117, 114, 108, 40, 97] 4 (by decide) [97] 5 .eofInUrl rfl,
   url_error_kind.2 [117, 114, 108, 40, 97] false initState⟩

/-! ## Unclosed blocks at end of input (claim C9) -/

mutual

/-- Number of ParseError tokens in a component value, recursively. -/
def countErrTok : Token → Nat
  | .parseError _ _ _ => 1
  | .functionBlock _ _ _ args => countErrList args
  | .curlyBlock _ _ c => countErrList c
  | .squareBlock _ _ c => countErrList c
  | .parenBlock _ _ c => countErrList c
  | _ => 0

/-- Number of ParseError tokens in a token list, recursively. -/
def countErrList : List Token → Nat
  | [] => 0
  | t :: ts => countErrTok t + countErrList ts

end

/-- Number of ParseError tokens saved in the open-block frames. -/
def countErrFrames : List Frame → Nat
  | [] => 0
  | f :: rest => countErrList f.parent + countErrFrames rest

theorem countErrList_append (a b : List Token) :
    countErrList (a ++ b) = countErrList a + countErrList b := by
  induction a with
  | nil => simp [countErrList]
  | cons t ts ih =>
    show countErrTok t + countErrList (ts ++ b) =
      countErrTok t + countErrList ts + countErrList b
    rw [ih]
    omega

theorem countErrTok_mkBlock (k : BlockKind) (line col : Nat) (c : List Token) :
    countErrTok (mkBlock k line col c) = countErrList c := by
  cases k <;> rfl

theorem countErr_closeFrame (f : Frame) (cur : List Token) :
    countErrList (closeFrame f cur) = countErrList f.parent + countErrList cur := by
  unfold closeFrame
  rw [countErrList_append]
  simp [countErrList, countErrTok_mkBlock]

/-- **C9.**  Input ending inside open blocks: `\x7ba` yields exactly one
CurlyBracketsBlock containing `Ident a` and nothing else — and in general
the end-of-input folding of still-open frames adds no ParseError token
whatsoever: the error count of the folded result is exactly the error count
already accumulated in the frames and the current list. -/
theorem unclosed_blocks_eof :
    parse_component_value_list [123, 97] false =
      some [.curlyBlock 1 1 [.ident 1 2 [97]]] ∧
    (∀ (stk : List Frame) (cur : List Token),
      countErrList (finalize stk cur) = countErrFrames stk + countErrList cur) := by
  refine ⟨rfl, ?_⟩
  intro stk
  induction stk with
  | nil => intro cur; simp [finalize, countErrFrames]
  | cons f rest ih =>
    intro cur
    simp only [finalize, countErrFrames, ih, countErr_closeFrame]
    omega

/-! ## Monotonicity of token positions (claim C5): position arithmetic -/

/-- Lexicographic order on `(line, column)` positions. -/
def posLe (a b : Nat × Nat) : Prop := a.1 < b.1 ∨ (a.1 = b.1 ∧ a.2 ≤ b.2)

theorem posLe_refl (a : Nat × Nat) : posLe a a := Or.inr ⟨rfl, Nat.le_refl _⟩

theorem posLe_trans {a b c : Nat × Nat} (h1 : posLe a b) (h2 : posLe b c) :
    posLe a c := by
  rcases h1 with h1 | ⟨h1, h1c⟩ <;> rcases h2 with h2 | ⟨h2, h2c⟩
  · exact Or.inl (Nat.lt_trans h1 h2)
  · exact Or.inl (h2 ▸ h1)
  · exact Or.inl (h1 ▸ h2)
  · exact Or.inr ⟨h1.trans h2, h1c.trans h2c⟩

/-- Number of newlines before index `p`. -/
def countNL0 (css : List Nat) (p : Nat) : Nat := (css.take p).count 10

/-- Index just after the last newline before index `p` (`0` when none). -/
def nlBound (css : List Nat) : Nat → Nat
  | 0 => 0
  | p + 1 => if nth css p == 10 then p + 1 else nlBound css p

/-- The canonical 1-based `(line, column)` of source index `p`. -/
def posOf (css : List Nat) (p : Nat) : Nat × Nat :=
  (1 + countNL0 css p, p - nlBound css p + 1)

theorem countNL0_succ (css : List Nat) (p : Nat) :
    countNL0 css (p + 1) = countNL0 css p + (if nth css p == 10 then 1 else 0) := by
  unfold countNL0
  rw [List.take_succ, List.count_append]
  congr 1
  cases hg : css[p]? with
  | none =>
    have hge : css.length ≤ p := by
      by_contra hlt
      rw [List.getElem?_eq_getElem (by omega)] at hg
      exact Option.noConfusion hg
    rw [nth_of_ge hge]
    simp [hg]
  | some c =>
    have hc : nth css p = c := by
      unfold nth
      simp [List.getD_eq_getElem?_getD, hg]
    rw [hc]
    by_cases h10 : c = 10
    · simp [hg, h10, List.count_singleton]
    · simp [hg, h10, List.count_singleton]

theorem countNL_split (css : List Nat) {a b : Nat} (h : a ≤ b) :
    countNL0 css b = countNL0 css a + countNLBetween css a b := by
  unfold countNL0 countNLBetween substr
  have hsplit : (css.take b).take a ++ (css.take b).drop a = css.take b :=
    List.take_append_drop _ _
  have htt : (css.take b).take a = css.take a := by
    rw [List.take_take, Nat.min_eq_left h]
  rw [← htt, ← List.count_append, hsplit]

theorem countNLBetween_succ (css : List Nat) {a b : Nat} (h : a ≤ b) :
    countNLBetween css a (b + 1) =
      countNLBetween css a b + (if nth css b == 10 then 1 else 0) := by
  have h1 := countNL_split css h
  have h2 := countNL_split css (show a ≤ b + 1 by omega)
  have h3 := countNL0_succ css b
  omega

theorem nlBound_succ (css : List Nat) (p : Nat) :
    nlBound css (p + 1) = if nth css p == 10 then p + 1 else nlBound css p := rfl

theorem nlBound_le (css : List Nat) (p : Nat) : nlBound css p ≤ p := by
  induction p with
  | zero => simp [nlBound]
  | succ q ih =>
    unfold nlBound
    split <;> omega

theorem countNL0_mono (css : List Nat) {a b : Nat} (h : a ≤ b) :
    countNL0 css a ≤ countNL0 css b := by
  have := countNL_split css h
  omega

theorem nlBound_eq_of_no_nl (css : List Nat) {a b : Nat} (h : a ≤ b)
    (h0 : countNLBetween css a b = 0) : nlBound css b = nlBound css a := by
  induction b with
  | zero =>
    have ha : a = 0 := by omega
    rw [ha]
  | succ q ih =>
    by_cases hq : a ≤ q
    · have hs := countNLBetween_succ css hq
      have h10 : (nth css q == 10) = false := by
        by_cases hh : (nth css q == 10) = true
        · rw [hh] at hs
          simp at hs
          omega
        · rw [Bool.not_eq_true] at hh
          exact hh
      rw [nlBound_succ]
      simp only [h10, Bool.false_eq_true, if_false]
      refine ih hq ?_
      rw [hs, h10] at h0
      simpa using h0
    · have ha : a = q + 1 := by omega
      rw [ha]

theorem nlBound_ge_of_nl {css : List Nat} {a b : Nat} (h : a ≤ b)
    (h0 : 0 < countNLBetween css a b) : a ≤ nlBound css b := by
  induction b with
  | zero =>
    have ha : a = 0 := by omega
    simp [ha, nlBound]
  | succ q ih =>
    by_cases hq : a ≤ q
    · have hs := countNLBetween_succ css hq
      rw [nlBound_succ]
      split <;> rename_i h10
      · omega
      · rw [Bool.not_eq_true] at h10
        rw [h10] at hs
        simp only [Bool.false_eq_true, if_false, Nat.add_zero] at hs
        exact ih hq (by omega)
    · have ha : a = q + 1 := by omega
      subst ha
      have hself : countNLBetween css (q + 1) (q + 1) = 0 := by
        have := countNL_split css (Nat.le_refl (q + 1))
        omega
      omega

theorem posOf_mono (css : List Nat) {p q : Nat} (h : p ≤ q) :
    posLe (posOf css p) (posOf css q) := by
  have hc := countNL0_mono css h
  by_cases he : countNL0 css p = countNL0 css q
  · have h0 : countNLBetween css p q = 0 := by
      have := countNL_split css h
      omega
    have hnl := nlBound_eq_of_no_nl css h h0
    refine Or.inr ⟨by unfold posOf; omega, ?_⟩
    unfold posOf
    have := nlBound_le css p
    have := nlBound_le css q
    rw [hnl]
    dsimp only
    omega
  · exact Or.inl (by unfold posOf; dsimp only; omega)

/-- The line bookkeeping computes the canonical line and newline bound. -/

theorem rfindNL_zero (css : List Nat) (a : Nat) : rfindNL css a 0 = none := rfl

theorem rfindNL_succ (css : List Nat) (a b : Nat) :
    rfindNL css a (b + 1) =
      if b < a then none
      else if nth css b == 10 then some b
      else rfindNL css a b := rfl

theorem advanceLine_def (css : List Nat) (a b line lastNL1 : Nat) :
    advanceLine css a b line lastNL1 =
      match rfindNL css a b with
      | some n => (line + 1 + countNLBetween css a n, n + 1)
      | none => (line, lastNL1) := rfl

theorem advanceLine_eq (css : List Nat) {a b line lastNL1 : Nat} (hab : a ≤ b)
    (hline : line = 1 + countNL0 css a) (hnl : lastNL1 = nlBound css a) :
    advanceLine css a b line lastNL1 = (1 + countNL0 css b, nlBound css b) := by
  induction b with
  | zero =>
    have ha : a = 0 := by omega
    subst ha
    rw [advanceLine_def, rfindNL_zero, hline, hnl]
  | succ q ih =>
    rw [advanceLine_def, rfindNL_succ]
    by_cases hlt : q < a
    · have ha : a = q + 1 := by omega
      rw [if_pos hlt]
      dsimp only
      rw [hline, hnl, ha]
    · rw [if_neg hlt]
      by_cases h10 : (nth css q == 10) = true
      · rw [if_pos h10]
        dsimp only
        have hcq : countNL0 css (q + 1) = countNL0 css q + 1 := by
          have := countNL0_succ css q
          rw [h10] at this
          simp at this
          omega
        have hsplit := countNL_split css (show a ≤ q by omega)
        have hnb : nlBound css (q + 1) = q + 1 := by
          simp [nlBound_succ, h10]
        rw [hnb]
        simp only [Prod.mk.injEq]
        exact ⟨by omega, trivial⟩
      · rw [if_neg h10]
        rw [Bool.not_eq_true] at h10
        have hcq : countNL0 css (q + 1) = countNL0 css q := by
          have := countNL0_succ css q
          rw [h10] at this
          simpa using this
        have hnb : nlBound css (q + 1) = nlBound css q := by
          simp [nlBound_succ, h10]
        rw [← advanceLine_def, ih (by omega), hcq, hnb]

/-! ## Monotonicity of token positions (C5): flattening the nested output -/

mutual

/-- Positions of a component value and its nested contents, in document
(pre-order) order. -/
def tokFlat : Token → List (Nat × Nat)
  | .whitespace l c _ => [(l, c)]
  | .ident l c _ => [(l, c)]
  | .atKeyword l c _ => [(l, c)]
  | .hash l c _ _ => [(l, c)]
  | .string l c _ => [(l, c)]
  | .url l c _ => [(l, c)]
  | .number l c _ _ => [(l, c)]
  | .percentage l c _ _ => [(l, c)]
  | .dimension l c _ _ _ => [(l, c)]
  | .unicodeRange l c _ _ => [(l, c)]
  | .comment l c _ => [(l, c)]
  | .literal l c _ => [(l, c)]
  | .functionBlock l c _ args => (l, c) :: flatList args
  | .curlyBlock l c cont => (l, c) :: flatList cont
  | .squareBlock l c cont => (l, c) :: flatList cont
  | .parenBlock l c cont => (l, c) :: flatList cont
  | .parseError l c _ => [(l, c)]

/-- Positions of a token list in document order. -/
def flatList : List Token → List (Nat × Nat)
  | [] => []
  | t :: ts => tokFlat t ++ flatList ts

end

/-- Positions of the entire pending output — the saved frames turned inside
out around the current accumulator — in document order. -/
def flatState : List Frame → List (Nat × Nat) → List (Nat × Nat)
  | [], cur => cur
  | f :: rest, cur => flatState rest (flatList f.parent ++ ((f.line, f.col) :: cur))

theorem flatList_append (a b : List Token) :
    flatList (a ++ b) = flatList a ++ flatList b := by
  induction a with
  | nil => simp [flatList]
  | cons t ts ih =>
    show tokFlat t ++ flatList (ts ++ b) = (tokFlat t ++ flatList ts) ++ flatList b
    rw [ih, List.append_assoc]

theorem flatState_append (stk : List Frame) :
    ∀ cur extra, flatState stk (cur ++ extra) = flatState stk cur ++ extra := by
  induction stk with
  | nil => intro cur extra; rfl
  | cons f rest ih =>
    intro cur extra
    show flatState rest (flatList f.parent ++ ((f.line, f.col) :: (cur ++ extra))) = _
    have : flatList f.parent ++ ((f.line, f.col) :: (cur ++ extra)) =
        (flatList f.parent ++ ((f.line, f.col) :: cur)) ++ extra := by
      simp
    rw [this, ih]
    rfl

theorem tokFlat_mkBlock (k : BlockKind) (l c : Nat) (cont : List Token) :
    tokFlat (mkBlock k l c cont) = (l, c) :: flatList cont := by
  cases k <;> rfl

theorem flatList_closeFrame (f : Frame) (cur : List Token) :
    flatList (closeFrame f cur) =
      flatList f.parent ++ ((f.line, f.col) :: flatList cur) := by
  unfold closeFrame
  rw [flatList_append]
  show _ ++ (tokFlat (mkBlock f.kind f.line f.col cur) ++ []) = _
  rw [tokFlat_mkBlock]
  simp

theorem flat_finalize : ∀ (stk : List Frame) (cur : List Token),
    flatList (finalize stk cur) = flatState stk (flatList cur) := by
  intro stk
  induction stk with
  | nil => intro cur; rfl
  | cons f rest ih =>
    intro cur
    show flatList (finalize rest (closeFrame f cur)) = _
    rw [ih, flatList_closeFrame]
    rfl

theorem chain'_const {l : List (Nat × Nat)} {P : Nat × Nat}
    (h : ∀ x ∈ l, x = P) : List.Chain' posLe l := by
  induction l with
  | nil => exact List.chain'_nil
  | cons x xs ih =>
    rcases xs with _ | ⟨y, ys⟩
    · exact List.chain'_singleton _
    · refine List.Chain'.cons ?_ (ih ?_)
      · rw [h x (by simp), h y (by simp)]
        exact posLe_refl P
      · intro z hz
        exact h z (by simp [hz])

/-- The loop invariant behind the position-monotonicity property: the line
bookkeeping fields are canonical for `tokenStartPos`, and the positions of
the entire pending output are sorted and bounded by the position of the
last token start. -/
structure Inv (css : List Nat) (st : State) : Prop where
  tsp_le : st.tokenStartPos ≤ st.pos
  line_eq : st.line = 1 + countNL0 css st.tokenStartPos
  nl_eq : st.lastNL1 = nlBound css st.tokenStartPos
  sorted : List.Chain' posLe (flatState st.stack (flatList st.tokens))
  bounded : ∀ q ∈ flatState st.stack (flatList st.tokens),
    posLe q (posOf css st.tokenStartPos)

theorem inv_init (css : List Nat) : Inv css initState := by
  refine ⟨Nat.le_refl _, rfl, rfl, List.chain'_nil, ?_⟩
  intro q hq
  exact absurd hq (by simp [initState, flatState, flatList])

/-- With the invariant, the per-step bookkeeping computes the canonical
position of the cursor. -/
theorem curPos_eq {css : List Nat} {st : State} (hInv : Inv css st) :
    curLine css st = 1 + countNL0 css st.pos ∧
    curNL css st = nlBound css st.pos ∧
    (curLine css st, curCol css st) = posOf css st.pos := by
  have h := advanceLine_eq css hInv.tsp_le hInv.line_eq hInv.nl_eq
  have h1 : curLine css st = 1 + countNL0 css st.pos := by
    unfold curLine
    rw [h]
  have h2 : curNL css st = nlBound css st.pos := by
    unfold curNL
    rw [h]
  refine ⟨h1, h2, ?_⟩
  unfold curCol posOf
  rw [h1, h2]

/-! ## Monotonicity of token positions (C5): shape preservation lemmas -/

theorem sorted_append_const {css : List Nat} {st : State} (hInv : Inv css st)
    {xs : List (Nat × Nat)}
    (hxs : ∀ x ∈ xs, x = (curLine css st, curCol css st)) :
    List.Chain' posLe (flatState st.stack (flatList st.tokens) ++ xs) := by
  obtain ⟨hl1, hl2, hl3⟩ := curPos_eq hInv
  have hmono := posOf_mono css hInv.tsp_le
  rw [List.chain'_append]
  refine ⟨hInv.sorted, chain'_const hxs, ?_⟩
  intro x hx y hy
  have hxb := hInv.bounded x (List.mem_of_mem_getLast? hx)
  have hyv := hxs y (List.mem_of_mem_head? hy)
  rw [hyv, hl3]
  exact posLe_trans hxb hmono

theorem bounded_append_const {css : List Nat} {st : State} (hInv : Inv css st)
    {xs : List (Nat × Nat)}
    (hxs : ∀ x ∈ xs, x = (curLine css st, curCol css st)) :
    ∀ q ∈ flatState st.stack (flatList st.tokens) ++ xs,
      posLe q (posOf css st.pos) := by
  obtain ⟨hl1, hl2, hl3⟩ := curPos_eq hInv
  have hmono := posOf_mono css hInv.tsp_le
  intro q hq
  rcases List.mem_append.mp hq with hq | hq
  · exact posLe_trans (hInv.bounded q hq) hmono
  · rw [hxs q hq, hl3]
    exact posLe_refl _

theorem inv_emit {css : List Nat} {st : State} (hInv : Inv css st) {L : List Token}
    {p' : Nat} (hp' : st.pos ≤ p')
    (hL : ∀ x ∈ flatList L, x = (curLine css st, curCol css st)) :
    Inv css (emitSt css st L p') := by
  obtain ⟨hl1, hl2, hl3⟩ := curPos_eq hInv
  have hflat : flatState (emitSt css st L p').stack
      (flatList (emitSt css st L p').tokens)
      = flatState st.stack (flatList st.tokens) ++ flatList L := by
    show flatState st.stack (flatList (st.tokens ++ L)) = _
    rw [flatList_append, flatState_append]
  refine ⟨hp', hl1, hl2, ?_, ?_⟩
  · rw [hflat]
    exact sorted_append_const hInv hL
  · rw [hflat]
    exact bounded_append_const hInv hL

theorem inv_push {css : List Nat} {st : State} (hInv : Inv css st)
    {p' ec : Nat} {k : BlockKind} (hp' : st.pos ≤ p') :
    Inv css (pushSt css st p' ec k) := by
  obtain ⟨hl1, hl2, hl3⟩ := curPos_eq hInv
  have hflat : flatState (pushSt css st p' ec k).stack
      (flatList (pushSt css st p' ec k).tokens)
      = flatState st.stack (flatList st.tokens) ++ [(curLine css st, curCol css st)] := by
    show flatState st.stack
      (flatList st.tokens ++ ((curLine css st, curCol css st) :: flatList [])) = _
    rw [flatState_append]
    rfl
  refine ⟨hp', hl1, hl2, ?_, ?_⟩
  · rw [hflat]
    exact sorted_append_const hInv (by simp)
  · rw [hflat]
    exact bounded_append_const hInv (by simp)

theorem inv_pop {css : List Nat} {st : State} {f : Frame} {rest : List Frame}
    (hInv : Inv css st) (hstk : st.stack = f :: rest) :
    Inv css { baseSt css st with
              pos := st.pos + 1
              tokens := closeFrame f st.tokens
              endChar := f.savedEnd
              stack := rest } := by
  obtain ⟨hl1, hl2, hl3⟩ := curPos_eq hInv
  have hmono := posOf_mono css hInv.tsp_le
  have hflat : flatState rest (flatList (closeFrame f st.tokens)) =
      flatState st.stack (flatList st.tokens) := by
    rw [flatList_closeFrame, hstk]
    rfl
  refine ⟨by show st.pos ≤ st.pos + 1; omega, hl1, hl2, ?_, ?_⟩
  · show List.Chain' posLe (flatState rest (flatList (closeFrame f st.tokens)))
    rw [hflat]
    exact hInv.sorted
  · show ∀ q ∈ flatState rest (flatList (closeFrame f st.tokens)), _
    rw [hflat]
    intro q hq
    exact posLe_trans (hInv.bounded q hq) hmono

theorem inv_pop_nil {css : List Nat} {st : State} (hInv : Inv css st) :
    Inv css { baseSt css st with pos := st.pos + 1 } := by
  obtain ⟨hl1, hl2, hl3⟩ := curPos_eq hInv
  have hmono := posOf_mono css hInv.tsp_le
  refine ⟨by show st.pos ≤ st.pos + 1; omega, hl1, hl2, hInv.sorted, ?_⟩
  intro q hq
  exact posLe_trans (hInv.bounded q hq) hmono

/-- Sortedness of the pending output of the `break` state of the
unterminated-comment branch. -/
theorem sorted_done {css : List Nat} {st : State} (hInv : Inv css st)
    {L : List Token}
    (hL : ∀ x ∈ flatList L, x = (curLine css st, curCol css st)) :
    List.Chain' posLe (flatState st.stack (flatList (st.tokens ++ L))) := by
  rw [flatList_append, flatState_append]
  exact sorted_append_const hInv hL

/-- Outcome-indexed invariant statement for one scanner step. -/
def StepOK (css : List Nat) : StepResult → Prop
  | .next st' => Inv css st'
  | .done st' => List.Chain' posLe (flatState st'.stack (flatList st'.tokens))
  | .fail => True

theorem step_inv {css : List Nat} {skipC : Bool} {st : State}
    (hInv : Inv css st) (hpos : st.pos < css.length) :
    StepOK css (step css skipC st) := by
  delta step
  by_cases c1 : isWsChar (nth css st.pos) = true
  · rw [if_pos c1]
    exact inv_emit hInv (by have := skipWs_le css (st.pos + 1); omega)
      (by intro x hx; simpa [flatList, tokFlat] using hx)
  rw [if_neg c1]
  by_cases c2 : ((nth css st.pos == 85 || nth css st.pos == 117) &&
      decide (st.pos + 2 < css.length) && nth css (st.pos + 1) == 43 &&
      (isHexDigit (nth css (st.pos + 2)) || nth css (st.pos + 2) == 63)) = true
  · rw [if_pos c2]
    exact inv_emit hInv (by have := consumeUnicodeRange_le css (st.pos + 2); omega)
      (by intro x hx; simpa [flatList, tokFlat] using hx)
  rw [if_neg c2]
  by_cases c3 : matchAt css [45, 45, 62] st.pos = true
  · rw [if_pos c3]
    exact inv_emit hInv (by omega)
      (by intro x hx; simpa [flatList, tokFlat] using hx)
  rw [if_neg c3]
  by_cases c4 : isIdentStart css st.pos = true
  · rw [if_pos c4]
    by_cases c4a : (!matchAt css [40] (consumeIdent css st.pos).2) = true
    · rw [if_pos c4a]
      exact inv_emit hInv (by have := consumeIdent_lt c4 hpos; omega)
        (by intro x hx; simpa [flatList, tokFlat] using hx)
    rw [if_neg c4a]
    by_cases c4b : (asciiLower (consumeIdent css st.pos).1 == [117, 114, 108] &&
        (decide (css.length ≤ skipWs css ((consumeIdent css st.pos).2 + 1)) ||
         !(nth css (skipWs css ((consumeIdent css st.pos).2 + 1)) == 34 ||
           nth css (skipWs css ((consumeIdent css st.pos).2 + 1)) == 39))) = true
    · rw [if_pos c4b]
      split
      · rename_i uv e hu1 hu2
        by_cases ca : e = ErrKind.eofInString ∨ e = ErrKind.eofInUrl
        · rw [if_pos ca]
          exact inv_emit hInv (by have h1 := consumeIdent_lt c4 hpos; have h2 := consumeUrl_le css ((consumeIdent css st.pos).2 + 1); omega)
            (by intro x hx; simp [flatList, tokFlat] at hx; first | rfl | exact hx)
        rw [if_neg ca]
        trivial
      · rename_i uv hu1 hu2
        exact inv_emit hInv (by have h1 := consumeIdent_lt c4 hpos; have h2 := consumeUrl_le css ((consumeIdent css st.pos).2 + 1); omega)
          (by intro x hx; simpa [flatList, tokFlat] using hx)
      · rename_i e hu1 hu2
        exact inv_emit hInv (by have h1 := consumeIdent_lt c4 hpos; have h2 := consumeUrl_le css ((consumeIdent css st.pos).2 + 1); omega)
          (by intro x hx; simpa [flatList, tokFlat] using hx)
      · rename_i hu1 hu2
        exact inv_emit hInv (by have h1 := consumeIdent_lt c4 hpos; have h2 := consumeUrl_le css ((consumeIdent css st.pos).2 + 1); omega)
          (by intro x hx; simp [flatList] at hx)
    rw [if_neg c4b]
    exact inv_push hInv (by have := consumeIdent_lt c4 hpos; omega)
  rw [if_neg c4]
  split
  · rename_i m hm
    by_cases cnd : (decide (m.1 < css.length) && isIdentStart css m.1) = true
    · rw [if_pos cnd]
      exact inv_emit hInv (by have h1 := numberMatch_lt hm; have h2 := consumeIdent_le css m.1; omega)
        (by intro x hx; simpa [flatList, tokFlat] using hx)
    rw [if_neg cnd]
    by_cases cnp : matchAt css [37] m.1 = true
    · rw [if_pos cnp]
      exact inv_emit hInv (by have h1 := numberMatch_lt hm; omega)
        (by intro x hx; simpa [flatList, tokFlat] using hx)
    rw [if_neg cnp]
    exact inv_emit hInv (by have h1 := numberMatch_lt hm; omega)
      (by intro x hx; simpa [flatList, tokFlat] using hx)
  · rename_i hm
    by_cases c5 : (nth css st.pos == 64) = true
    · rw [if_pos c5]
      by_cases c5a : (decide (st.pos + 1 < css.length) && isIdentStart css (st.pos + 1)) = true
      · rw [if_pos c5a]
        exact inv_emit hInv (by have := consumeIdent_le css (st.pos + 1); omega)
          (by intro x hx; simpa [flatList, tokFlat] using hx)
      rw [if_neg c5a]
      exact inv_emit hInv (by omega)
        (by intro x hx; simpa [flatList, tokFlat] using hx)
    rw [if_neg c5]
    by_cases c6 : (nth css st.pos == 35) = true
    · rw [if_pos c6]
      by_cases c6a : (decide (st.pos + 1 < css.length) &&
        (isNameChar (nth css (st.pos + 1)) ||
         (nth css (st.pos + 1) == 92 && !matchAt css [92, 10] (st.pos + 1)))) = true
      · rw [if_pos c6a]
        exact inv_emit hInv (by have := consumeIdent_le css (st.pos + 1); omega)
          (by intro x hx; simpa [flatList, tokFlat] using hx)
      rw [if_neg c6a]
      exact inv_emit hInv (by omega)
        (by intro x hx; simpa [flatList, tokFlat] using hx)
    rw [if_neg c6]
    by_cases c7 : (nth css st.pos == 123) = true
    · rw [if_pos c7]
      exact inv_push hInv (by omega)
    rw [if_neg c7]
    by_cases c8 : (nth css st.pos == 91) = true
    · rw [if_pos c8]
      exact inv_push hInv (by omega)
    rw [if_neg c8]
    by_cases c9 : (nth css st.pos == 40) = true
    · rw [if_pos c9]
      exact inv_push hInv (by omega)
    rw [if_neg c9]
    by_cases c10 : st.endChar = some (nth css st.pos)
    · rw [if_pos c10]
      split
      · rename_i f rest hstk
        exact inv_pop hInv hstk
      · rename_i hstk
        exact inv_pop_nil hInv
    rw [if_neg c10]
    by_cases c11 : (nth css st.pos == 125 || nth css st.pos == 93 || nth css st.pos == 41) = true
    · rw [if_pos c11]
      exact inv_emit hInv (by omega)
        (by intro x hx; simpa [flatList, tokFlat] using hx)
    rw [if_neg c11]
    by_cases c12 : (nth css st.pos == 34 || nth css st.pos == 39) = true
    · rw [if_pos c12]
      refine inv_emit hInv
        (by have := consumeQuotedString_lt css st.pos; omega) ?_
      intro x hx
      rcases hv : (consumeQuotedString css st.pos).1 with _ | v <;>
        rcases he : (consumeQuotedString css st.pos).2.2 with _ | e <;>
        rw [hv, he] at hx <;> simp [flatList, tokFlat] at hx <;>
        first
        | rfl
        | exact hx
    rw [if_neg c12]
    by_cases c13 : matchAt css [47, 42] st.pos = true
    · rw [if_pos c13]
      split
      · rename_i hf
        show List.Chain' posLe (flatState st.stack (flatList
          (if skipC = true then st.tokens
           else st.tokens ++ [Token.comment (curLine css st) (curCol css st)
             (substr css (st.pos + 2) css.length)])))
        by_cases hsk : skipC = true
        · rw [if_pos hsk]
          exact hInv.sorted
        · rw [if_neg hsk]
          exact sorted_done hInv (by intro x hx; simpa [flatList, tokFlat] using hx)
      · rename_i f hf
        refine inv_emit hInv (by have := findPair_le hf; omega) ?_
        intro x hx
        by_cases hsk : skipC = true
        · rw [if_pos hsk] at hx
          simp [flatList] at hx
        · rw [if_neg hsk] at hx
          simpa [flatList, tokFlat] using hx
    rw [if_neg c13]
    by_cases c14 : matchAt css [60, 33, 45, 45] st.pos = true
    · rw [if_pos c14]
      exact inv_emit hInv (by omega)
        (by intro x hx; simpa [flatList, tokFlat] using hx)
    rw [if_neg c14]
    by_cases c15 : matchAt css [124, 124] st.pos = true
    · rw [if_pos c15]
      exact inv_emit hInv (by omega)
        (by intro x hx; simpa [flatList, tokFlat] using hx)
    rw [if_neg c15]
    by_cases c16 : (nth css st.pos == 126 || nth css st.pos == 124 || nth css st.pos == 94 ||
        nth css st.pos == 36 || nth css st.pos == 42) = true
    · rw [if_pos c16]
      by_cases c16a : matchAt css [61] (st.pos + 1) = true
      · rw [if_pos c16a]
        exact inv_emit hInv (by omega)
          (by intro x hx; simpa [flatList, tokFlat] using hx)
      rw [if_neg c16a]
      exact inv_emit hInv (by omega)
        (by intro x hx; simpa [flatList, tokFlat] using hx)
    rw [if_neg c16]
    exact inv_emit hInv (by omega)
      (by intro x hx; simpa [flatList, tokFlat] using hx)

theorem loop_sorted (css : List Nat) (skipC : Bool) :
    ∀ fuel (st : State) (ts : List Token), Inv css st →
      loop css skipC fuel st = some ts → List.Chain' posLe (flatList ts) := by
  intro fuel
  induction fuel with
  | zero =>
    intro st ts _ h
    simp [loop] at h
  | succ f ih =>
    intro st ts hInv h
    simp only [loop] at h
    split at h
    · rename_i hlt
      split at h
      · rename_i st' hres
        refine ih st' ts ?_ h
        have hok := @step_inv css skipC st hInv hlt
        rw [hres] at hok
        exact hok
      · rename_i st' hres
        injection h with h
        rw [← h, flat_finalize]
        have hok := @step_inv css skipC st hInv hlt
        rw [hres] at hok
        exact hok
      · exact absurd h (by simp)
    · injection h with h
      rw [← h, flat_finalize]
      exact hInv.sorted

/-- **C5.**  For every input and flag value, the `(line, column)` positions
of the returned tokens — in document order, nested block contents included —
are monotonically non-decreasing in lexicographic order. -/
theorem positions_monotone (css0 : List Nat) (skipC : Bool) (ts : List Token)
    (h : parse_component_value_list css0 skipC = some ts) :
    List.Chain' posLe (flatList ts) := by
  unfold parse_component_value_list at h
  exact loop_sorted (preprocess css0) skipC _ initState ts (inv_init _) h

/-- Witness for C5 on the input `a b`. -/
theorem positions_monotone_witness :
    List.Chain' posLe (flatList
      [Token.ident 1 1 [97], Token.whitespace 1 2 [32], Token.ident 1 3 [98]]) :=
  positions_monotone [97, 32, 98] false _ rfl

/-! ## Skip-comments refinement (claim C8) -/

mutual

/-- Recursively delete Comment tokens inside a component value. -/
def removeCommentsTok : Token → Token
  | .functionBlock l c n args => .functionBlock l c n (removeComments args)
  | .curlyBlock l c cont => .curlyBlock l c (removeComments cont)
  | .squareBlock l c cont => .squareBlock l c (removeComments cont)
  | .parenBlock l c cont => .parenBlock l c (removeComments cont)
  | t => t

/-- Recursively delete all Comment tokens from a component value list. -/
def removeComments : List Token → List Token
  | [] => []
  | .comment _ _ _ :: ts => removeComments ts
  | t :: ts => removeCommentsTok t :: removeComments ts

end

theorem removeComments_append (a b : List Token) :
    removeComments (a ++ b) = removeComments a ++ removeComments b := by
  induction a with
  | nil => rfl
  | cons t ts ih =>
    cases t <;> simp only [List.cons_append, removeComments, List.append_eq, ih]

/-- Relation between a frame of the comment-skipping run and the
corresponding frame of the comment-keeping run. -/
def RelFrame (f1 f2 : Frame) : Prop :=
  f1.parent = removeComments f2.parent ∧ f1.savedEnd = f2.savedEnd ∧
  f1.line = f2.line ∧ f1.col = f2.col ∧ f1.kind = f2.kind

abbrev RelStack : List Frame → List Frame → Prop := List.Forall₂ RelFrame

/-- Relation between the scanner states of the two runs: all control fields
agree, and every pending token list of the skipping run is the
comment-filtered version of the keeping run's. -/
structure Rel (st1 st2 : State) : Prop where
  pos : st1.pos = st2.pos
  tsp : st1.tokenStartPos = st2.tokenStartPos
  line : st1.line = st2.line
  nl : st1.lastNL1 = st2.lastNL1
  tokens : st1.tokens = removeComments st2.tokens
  ec : st1.endChar = st2.endChar
  stack : RelStack st1.stack st2.stack

/-- Relation between the two runs' step outcomes. -/
def RelRes : StepResult → StepResult → Prop
  | .next a, .next b => Rel a b
  | .done a, .done b => Rel a b
  | .fail, .fail => True
  | _, _ => False

theorem closeFrame_rc {f1 f2 : Frame} (hf : RelFrame f1 f2) (cur : List Token) :
    closeFrame f1 (removeComments cur) = removeComments (closeFrame f2 cur) := by
  obtain ⟨hp, hs, hl, hc, hk⟩ := hf
  unfold closeFrame
  rw [removeComments_append, hp, hl, hc, hk]
  congr 1
  cases f2.kind <;> rfl

theorem finalize_rc : ∀ {K stk : List Frame}, RelStack K stk → ∀ cur,
    finalize K (removeComments cur) = removeComments (finalize stk cur) := by
  intro K stk h
  induction h with
  | nil => intro cur; rfl
  | cons hf _ ih =>
    intro cur
    show finalize _ (closeFrame _ (removeComments cur)) = _
    rw [closeFrame_rc hf]
    exact ih _

/-- Both runs emit related states when they append the related token lists
`L1 = removeComments L2` at the same position. -/
theorem rel_emit (css : List Nat) (st2 : State) (T : List Token) (K : List Frame)
    (hT : T = removeComments st2.tokens) (hK : RelStack K st2.stack)
    {L1 L2 : List Token} (hL : L1 = removeComments L2) (p' : Nat) :
    Rel (emitSt css
          ⟨st2.pos, st2.tokenStartPos, st2.line, st2.lastNL1, T, st2.endChar, K⟩
          L1 p')
        (emitSt css st2 L2 p') := by
  refine ⟨rfl, rfl, rfl, rfl, ?_, rfl, hK⟩
  show T ++ L1 = removeComments (st2.tokens ++ L2)
  rw [removeComments_append, hT, hL]

theorem rel_push (css : List Nat) (st2 : State) (T : List Token) (K : List Frame)
    (hT : T = removeComments st2.tokens) (hK : RelStack K st2.stack)
    (p' ec : Nat) (k : BlockKind) :
    Rel (pushSt css
          ⟨st2.pos, st2.tokenStartPos, st2.line, st2.lastNL1, T, st2.endChar, K⟩
          p' ec k)
        (pushSt css st2 p' ec k) := by
  refine ⟨rfl, rfl, rfl, rfl, rfl, rfl, ?_⟩
  show RelStack (_ :: K) (_ :: st2.stack)
  exact List.Forall₂.cons ⟨hT, rfl, rfl, rfl, rfl⟩ hK

/-- Single-step simulation: from related states, the comment-skipping run
and the comment-keeping run take related steps. -/
theorem step_rel (css : List Nat) (st2 : State) (T : List Token) (K : List Frame)
    (hT : T = removeComments st2.tokens) (hK : RelStack K st2.stack) :
    RelRes
      (step css true
        ⟨st2.pos, st2.tokenStartPos, st2.line, st2.lastNL1, T, st2.endChar, K⟩)
      (step css false st2) := by
  delta step
  dsimp only
  by_cases c1 : isWsChar (nth css st2.pos) = true
  · rw [if_pos c1, if_pos c1]
    exact rel_emit css st2 T K hT hK (by rfl) _
  rw [if_neg c1, if_neg c1]
  by_cases c2 : ((nth css st2.pos == 85 || nth css st2.pos == 117) &&
      decide (st2.pos + 2 < css.length) && nth css (st2.pos + 1) == 43 &&
      (isHexDigit (nth css (st2.pos + 2)) || nth css (st2.pos + 2) == 63)) = true
  · rw [if_pos c2, if_pos c2]
    exact rel_emit css st2 T K hT hK (by rfl) _
  rw [if_neg c2, if_neg c2]
  by_cases c3 : matchAt css [45, 45, 62] st2.pos = true
  · rw [if_pos c3, if_pos c3]
    exact rel_emit css st2 T K hT hK (by rfl) _
  rw [if_neg c3, if_neg c3]
  by_cases c4 : isIdentStart css st2.pos = true
  · rw [if_pos c4, if_pos c4]
    by_cases c4a : (!matchAt css [40] (consumeIdent css st2.pos).2) = true
    · rw [if_pos c4a, if_pos c4a]
      exact rel_emit css st2 T K hT hK (by rfl) _
    rw [if_neg c4a, if_neg c4a]
    by_cases c4b : (asciiLower (consumeIdent css st2.pos).1 == [117, 114, 108] &&
        (decide (css.length ≤ skipWs css ((consumeIdent css st2.pos).2 + 1)) ||
         !(nth css (skipWs css ((consumeIdent css st2.pos).2 + 1)) == 34 ||
           nth css (skipWs css ((consumeIdent css st2.pos).2 + 1)) == 39))) = true
    · rw [if_pos c4b, if_pos c4b]
      rcases hu1 : (consumeUrl css ((consumeIdent css st2.pos).2 + 1)).1 with _ | uv
      · rcases hu2 : (consumeUrl css ((consumeIdent css st2.pos).2 + 1)).2.2 with _ | e
        · dsimp only
          exact rel_emit css st2 T K hT hK (by rfl) _
        · dsimp only
          exact rel_emit css st2 T K hT hK (by rfl) _
      · rcases hu2 : (consumeUrl css ((consumeIdent css st2.pos).2 + 1)).2.2 with _ | e
        · dsimp only
          exact rel_emit css st2 T K hT hK (by rfl) _
        · dsimp only
          by_cases ca : e = ErrKind.eofInString ∨ e = ErrKind.eofInUrl
          · rw [if_pos ca, if_pos ca]
            exact rel_emit css st2 T K hT hK (by rfl) _
          rw [if_neg ca, if_neg ca]
          trivial
    rw [if_neg c4b, if_neg c4b]
    exact rel_push css st2 T K hT hK _ _ _
  rw [if_neg c4, if_neg c4]
  rcases hm : numberMatch css st2.pos with _ | m
  · dsimp only
    by_cases c5 : (nth css st2.pos == 64) = true
    · rw [if_pos c5, if_pos c5]
      by_cases c5a : (decide (st2.pos + 1 < css.length) && isIdentStart css (st2.pos + 1)) = true
      · rw [if_pos c5a, if_pos c5a]
        exact rel_emit css st2 T K hT hK (by rfl) _
      rw [if_neg c5a, if_neg c5a]
      exact rel_emit css st2 T K hT hK (by rfl) _
    rw [if_neg c5, if_neg c5]
    by_cases c6 : (nth css st2.pos == 35) = true
    · rw [if_pos c6, if_pos c6]
      by_cases c6a : (decide (st2.pos + 1 < css.length) &&
        (isNameChar (nth css (st2.pos + 1)) ||
         (nth css (st2.pos + 1) == 92 && !matchAt css [92, 10] (st2.pos + 1)))) = true
      · rw [if_pos c6a, if_pos c6a]
        exact rel_emit css st2 T K hT hK (by rfl) _
      rw [if_neg c6a, if_neg c6a]
      exact rel_emit css st2 T K hT hK (by rfl) _
    rw [if_neg c6, if_neg c6]
    by_cases c7 : (nth css st2.pos == 123) = true
    · rw [if_pos c7, if_pos c7]
      exact rel_push css st2 T K hT hK _ _ _
    rw [if_neg c7, if_neg c7]
    by_cases c8 : (nth css st2.pos == 91) = true
    · rw [if_pos c8, if_pos c8]
      exact rel_push css st2 T K hT hK _ _ _
    rw [if_neg c8, if_neg c8]
    by_cases c9 : (nth css st2.pos == 40) = true
    · rw [if_pos c9, if_pos c9]
      exact rel_push css st2 T K hT hK _ _ _
    rw [if_neg c9, if_neg c9]
    by_cases c10 : st2.endChar = some (nth css st2.pos)
    · rw [if_pos c10, if_pos c10]
      rcases hstk2 : st2.stack with _ | ⟨f2, rest2⟩
      · rw [hstk2] at hK
        cases hK
        dsimp only
        show Rel _ _
        refine ⟨rfl, rfl, rfl, rfl, hT, rfl, ?_⟩
        show RelStack ([] : List Frame) st2.stack
        rw [hstk2]
        exact List.Forall₂.nil
      · rw [hstk2] at hK
        rcases hK with _ | @⟨f1, _, rest1, _, hf, hrest⟩
        dsimp only
        show Rel _ _
        refine ⟨rfl, rfl, rfl, rfl, ?_, ?_, ?_⟩
        · show closeFrame f1 T = removeComments (closeFrame f2 st2.tokens)
          rw [hT]
          exact closeFrame_rc hf st2.tokens
        · show f1.savedEnd = f2.savedEnd
          exact hf.2.1
        · show RelStack rest1 rest2
          exact hrest
    rw [if_neg c10, if_neg c10]
    by_cases c11 : (nth css st2.pos == 125 || nth css st2.pos == 93 || nth css st2.pos == 41) = true
    · rw [if_pos c11, if_pos c11]
      exact rel_emit css st2 T K hT hK (by rfl) _
    rw [if_neg c11, if_neg c11]
    by_cases c12 : (nth css st2.pos == 34 || nth css st2.pos == 39) = true
    · rw [if_pos c12, if_pos c12]
      rcases hv : (consumeQuotedString css st2.pos).1 with _ | v <;>
        rcases he : (consumeQuotedString css st2.pos).2.2 with _ | e <;>
        dsimp only <;>
        exact rel_emit css st2 T K hT hK (by rfl) _
    rw [if_neg c12, if_neg c12]
    by_cases c13 : matchAt css [47, 42] st2.pos = true
    · rw [if_pos c13, if_pos c13]
      rcases hfp : findPair css 42 47 (st2.pos + 2) with _ | f
      · dsimp only
        show Rel _ _
        refine ⟨rfl, rfl, rfl, rfl, ?_, rfl, hK⟩
        show T = removeComments (st2.tokens ++
          [Token.comment (curLine css st2) (curCol css st2)
            (substr css (st2.pos + 2) css.length)])
        rw [removeComments_append, hT]
        simp [removeComments]
      · dsimp only
        exact rel_emit css st2 T K hT hK (by rfl) _
    rw [if_neg c13, if_neg c13]
    by_cases c14 : matchAt css [60, 33, 45, 45] st2.pos = true
    · rw [if_pos c14, if_pos c14]
      exact rel_emit css st2 T K hT hK (by rfl) _
    rw [if_neg c14, if_neg c14]
    by_cases c15 : matchAt css [124, 124] st2.pos = true
    · rw [if_pos c15, if_pos c15]
      exact rel_emit css st2 T K hT hK (by rfl) _
    rw [if_neg c15, if_neg c15]
    by_cases c16 : (nth css st2.pos == 126 || nth css st2.pos == 124 || nth css st2.pos == 94 ||
        nth css st2.pos == 36 || nth css st2.pos == 42) = true
    · rw [if_pos c16, if_pos c16]
      by_cases c16a : matchAt css [61] (st2.pos + 1) = true
      · rw [if_pos c16a, if_pos c16a]
        exact rel_emit css st2 T K hT hK (by rfl) _
      rw [if_neg c16a, if_neg c16a]
      exact rel_emit css st2 T K hT hK (by rfl) _
    rw [if_neg c16, if_neg c16]
    exact rel_emit css st2 T K hT hK (by rfl) _
  · dsimp only
    by_cases cnum_dim : (decide (m.1 < css.length) && isIdentStart css m.1) = true
    · rw [if_pos cnum_dim, if_pos cnum_dim]
      exact rel_emit css st2 T K hT hK (by rfl) _
    rw [if_neg cnum_dim, if_neg cnum_dim]
    by_cases cnum_pct : matchAt css [37] m.1 = true
    · rw [if_pos cnum_pct, if_pos cnum_pct]
      exact rel_emit css st2 T K hT hK (by rfl) _
    rw [if_neg cnum_pct, if_neg cnum_pct]
    exact rel_emit css st2 T K hT hK (by rfl) _
theorem loop_rc (css : List Nat) :
    ∀ (fuel : Nat) (st1 st2 : State), Rel st1 st2 →
      loop css true fuel st1 = Option.map removeComments (loop css false fuel st2) := by
  intro fuel
  induction fuel with
  | zero => intro st1 st2 _; rfl
  | succ n ih =>
    intro st1 st2 h
    obtain ⟨p1, tsp1, l1, n1, T, e1, K⟩ := st1
    obtain ⟨hp, htsp, hl, hn, hT, hec, hK⟩ := h
    dsimp only at hp htsp hl hn hT hec hK
    subst hp htsp hl hn hec
    have hs := step_rel css st2 T K hT hK
    simp only [loop]
    by_cases hlt : st2.pos < css.length
    · rw [if_pos hlt, if_pos hlt]
      rcases h2 : step css true
          ⟨st2.pos, st2.tokenStartPos, st2.line, st2.lastNL1, T,
           st2.endChar, K⟩ with s1 | s1 | _ <;>
        rcases h3 : step css false st2 with s2 | s2 | _ <;>
        rw [h2, h3] at hs <;>
        simp only [RelRes] at hs <;>
        dsimp only
      · exact ih s1 s2 hs
      · rw [hs.tokens]
        exact congrArg some (finalize_rc hs.stack s2.tokens)
      · rfl
    · rw [if_neg hlt, if_neg hlt]
      rw [hT]
      exact congrArg some (finalize_rc hK st2.tokens)

/-- C8: tokenizing with comments suppressed yields exactly the result of
recursively removing all Comment tokens (including inside nested blocks and
function arguments) from the run that retains them — proved for every input,
which subsumes the inputs whose comments are all well-formed. -/
theorem skip_comments_filter (css0 : List Nat) :
    parse_component_value_list css0 true =
      Option.map removeComments (parse_component_value_list css0 false) := by
  unfold parse_component_value_list
  exact loop_rc (preprocess css0) ((preprocess css0).length + 1) initState initState
    ⟨rfl, rfl, rfl, rfl, rfl, rfl, List.Forall₂.nil⟩

end Tinycss2
